import Mathlib

/-!
# Recurrence Materializer — verification development

Shallow embedding of the recurring-transaction materialization engine of
`src/server/localAuth.ts`:

* `DatabaseStorage.calculateNextRecurrenceDates` (lines 706–764),
* `DatabaseStorage.processRecurringTransactions` (lines 655–704),
* `DatabaseStorage.getRecurringTransactions` (lines 644–653),

together with the `POST /api/transactions/process-recurrence` route handler.

Modelling conventions:

* JS `Date` timestamps are modelled at calendar-day resolution (`CalDate`:
  proleptic Gregorian year / 1-based month / 1-based day).  All `Date` values
  flowing through the recurrence engine are local midnights (the engine builds
  them with `new Date(year, month, day)`), so `a <= b` on JS dates is day-number
  comparison: we compare via `toRD` (a rata-die style day count).  A single
  timezone is assumed, so `toISOString().split('T')[0]` of a midnight date is
  its own calendar day.
* An *invalid* JS date (`new Date(NaN)`, the "missing/invalid anchor" case of
  the spec) is modelled by `Option.none` on the `date` column: in JS every
  comparison against `NaN` components is false, so each `switch` branch of the
  calculator produces no occurrence; the embedding short-circuits that
  uniformly to `[]`.
* The `decimal` column `amount` is modelled as an integer number of cents;
  the engine copies it verbatim, so its representation is irrelevant.
* The async/await persistence layer is modelled by explicit state passing over
  the list of transaction rows, and a thrown persistence error by an `Except`
  together with a failure schedule `failAt : Option Nat` naming the index of
  the awaited DB operation (existence check or insert) that throws.
-/

namespace SaaS

/-- A calendar date: proleptic Gregorian `year`, month `1..12`, day `1..31`
(when valid).  Models a JS `Date` at day resolution. -/
structure CalDate where
  year : Nat
  month : Nat
  day : Nat
deriving DecidableEq, Repr

/-- Gregorian leap-year test. -/
def isLeap (y : Nat) : Bool :=
  (y % 4 == 0 && y % 100 != 0) || y % 400 == 0

/-- Number of days of month `m` (1-based) in year `y`;
`new Date(y, m, 0).getDate()` in the source computes exactly this. -/
def daysInMonth (y m : Nat) : Nat :=
  if m = 2 then (if isLeap y then 29 else 28)
  else if m = 4 ∨ m = 6 ∨ m = 9 ∨ m = 11 then 30
  else 31

/-- Day count before 1-based month `m` in year `y` (leap-aware). -/
def daysBeforeMonth (y : Nat) : Nat → Nat
  | 0 => 0
  | 1 => 0
  | m + 1 => daysBeforeMonth y m + daysInMonth y m

/-- Day count of all years before year `y` (year 0 itself is a leap year:
the leap count is the number of leap years in `[0, y)`). -/
def daysBeforeYear (y : Nat) : Nat :=
  365 * y + (y + 3) / 4 + (y + 399) / 400 - (y + 99) / 100

/-- Rata-die style day number of a date.  Two valid dates compare (as JS
timestamps at day resolution) exactly as their `toRD` values. -/
def toRD : CalDate → Nat
  | ⟨y, m, dd⟩ => daysBeforeYear y + daysBeforeMonth y m + dd

/-- Validity of a calendar date. -/
def CalDate.Valid : CalDate → Prop
  | ⟨y, m, dd⟩ => 1 ≤ m ∧ m ≤ 12 ∧ 1 ≤ dd ∧ dd ≤ daysInMonth y m

instance (d : CalDate) : Decidable d.Valid :=
  match d with
  | ⟨y, m, dd⟩ =>
    inferInstanceAs (Decidable (1 ≤ m ∧ m ≤ 12 ∧ 1 ≤ dd ∧ dd ≤ daysInMonth y m))

/-- Successor day (used to model JS date rollover). -/
def nextDay : CalDate → CalDate
  | ⟨y, m, dd⟩ =>
    if dd < daysInMonth y m then ⟨y, m, dd + 1⟩
    else if m < 12 then ⟨y, m + 1, 1⟩
    else ⟨y + 1, 1, 1⟩

/-- Predecessor day (used to model JS date rollover for negative offsets,
e.g. `new Date(y, m, 0)`). -/
def prevDay : CalDate → CalDate
  | ⟨y, m, dd⟩ =>
    if 1 < dd then ⟨y, m, dd - 1⟩
    else if 1 < m then ⟨y, m - 1, daysInMonth y (m - 1)⟩
    else ⟨y - 1, 12, 31⟩

/-- `addDays d n` models JS `setDate(getDate() + n)` (day rollover in either
direction). -/
def addDays (d : CalDate) (n : Int) : CalDate :=
  if 0 ≤ n then Nat.iterate nextDay n.toNat d else Nat.iterate prevDay (-n).toNat d

/-- JS `Date.prototype.getDay`: `0 = Sunday .. 6 = Saturday`.
Calibrated so that 2000-01-01 is a Saturday (`6`). -/
def CalDate.getDay (d : CalDate) : Int :=
  ((toRD d + 5) % 7 : Nat)

/-- JS `new Date(y, mIdx, day)` with a 0-based month index `mIdx ≥ 0`:
the month index is normalized into the year, and the day offset (possibly
`≤ 0`, e.g. `new Date(y, m, 0)` for "last day of previous month") rolls over. -/
def mkDate (y : Nat) (mIdx : Nat) (day : Int) : CalDate :=
  addDays ⟨y + mIdx / 12, mIdx % 12 + 1, 1⟩ (day - 1)

example : CalDate.getDay ⟨2024, 6, 5⟩ = 3 := by decide
example : CalDate.getDay ⟨2024, 6, 2⟩ = 0 := by decide
example : CalDate.getDay ⟨2023, 12, 31⟩ = 0 := by decide
example : CalDate.getDay ⟨2024, 2, 29⟩ = 4 := by decide
example : CalDate.getDay ⟨2024, 3, 1⟩ = 5 := by decide
example : CalDate.getDay ⟨2000, 1, 1⟩ = 6 := by decide
example : toRD ⟨2024, 1, 1⟩ = toRD ⟨2023, 12, 31⟩ + 1 := by decide
example : toRD ⟨2025, 1, 1⟩ = toRD ⟨2024, 12, 31⟩ + 1 := by decide
example : toRD ⟨2024, 3, 1⟩ = toRD ⟨2024, 2, 29⟩ + 1 := by decide
example : daysInMonth 2024 2 = 29 := by decide
example : mkDate 2024 1 29 = ⟨2024, 2, 29⟩ := by decide
example : mkDate 2023 12 5 = ⟨2024, 1, 5⟩ := by decide
example : (mkDate 2024 2 0).day = 29 := by decide

/-- `status` column enum (`shared/schema.ts`). -/
inductive TxStatus where
  | paid | unpaid
deriving DecidableEq, Repr

/-- `recurrence_type` column enum (`shared/schema.ts`). -/
inductive RecurrenceType where
  | none | monthly | weekly | biweekly | monthly_variable
deriving DecidableEq, Repr

/-- A row of the `transactions` table (`shared/schema.ts`), restricted to the
columns the recurrence engine reads or writes.  `date = Option.none` models an
invalid/missing timestamp (JS Invalid Date). -/
structure Txn where
  userId : String
  categoryId : Option String
  title : String
  amount : Int
  date : Option CalDate
  status : TxStatus
  notes : Option String
  recurrenceType : RecurrenceType
  recurrenceDay : Option Int
  isRecurring : Bool
deriving DecidableEq, Repr

/-- JS truthiness of a nullable string column (`if (template.categoryId)`):
`null` and the empty string are falsy. -/
def strTruthy : Option String → Bool
  | some s => !(s = "")
  | Option.none => false

/-- JS `x || null` on a nullable string: the empty string is collapsed to
`null`. -/
def orNullStr : Option String → Option String
  | some s => if s = "" then Option.none else some s
  | Option.none => Option.none

/-- The `while (current <= target) { if (current >= template) push(current);
current += step }` loops of the weekly/biweekly branches, as fuel recursion.
The caller passes fuel `toRD target + 1 - toRD current`, which (for a step of
7 or 14 days) dominates the number of loop iterations, so the fuel cutoff is
never reached. -/
def collectEvery (stepLen : Nat) (templateDate targetDate : CalDate) :
    Nat → CalDate → List CalDate
  | 0, _ => []
  | fuel + 1, currentDate =>
    if toRD currentDate ≤ toRD targetDate then
      (if toRD templateDate ≤ toRD currentDate then [currentDate] else []) ++
        collectEvery stepLen templateDate targetDate fuel (addDays currentDate stepLen)
    else []

/-- `DatabaseStorage.calculateNextRecurrenceDates` (`src/server/localAuth.ts`
lines 706–764).  Comments quote the source lines being translated.
An invalid anchor (`template.date = Option.none`) makes every `getMonth()` /
`getDate()` read `NaN` in JS, so every loop guard is false and every branch
yields `[]`; the embedding returns `[]` up front in that case. -/
def calculateNextRecurrenceDates (template : Txn) (targetDate : CalDate) :
    List CalDate :=
  match template.date with
  | Option.none => []
  | some templateDate =>
    -- const startMonth = templateDate.getMonth(); const startYear = ...
    let startMonth : Nat := templateDate.month - 1
    let startYear : Nat := templateDate.year
    -- const monthsDiff = (targetYear - startYear) * 12 + (targetMonth - startMonth)
    let monthsDiff : Int :=
      ((targetDate.year : Int) - (startYear : Int)) * 12 +
        (((targetDate.month : Int) - 1) - (startMonth : Int))
    match template.recurrenceType with
    | .monthly | .monthly_variable =>
      -- const dayOfMonth = template.recurrenceDay || templateDate.getDate()
      -- (JS `||`: both null and 0 fall back to the anchor's day-of-month)
      let dayOfMonth : Int :=
        match template.recurrenceDay with
        | some r => if r = 0 then (templateDate.day : Int) else r
        | Option.none => (templateDate.day : Int)
      -- for (monthOffset = 0; monthOffset <= monthsDiff; monthOffset++)
      (List.range (if monthsDiff < 0 then 0 else monthsDiff.toNat + 1)).filterMap
        (fun monthOffset =>
          -- const date = new Date(startYear, startMonth + monthOffset, 1)
          let date := mkDate startYear (startMonth + monthOffset) 1
          let year := date.year
          let month := date.month - 1
          -- const lastDay = new Date(year, month + 1, 0).getDate()
          let lastDay := (mkDate year (month + 1) 0).day
          -- const actualDay = Math.min(dayOfMonth, lastDay)
          let actualDay : Int := min dayOfMonth (lastDay : Int)
          -- const occurrenceDate = new Date(year, month, actualDay)
          let occurrenceDate := mkDate year month actualDay
          -- if (occurrenceDate >= templateDate && occurrenceDate <= targetDate)
          if toRD templateDate ≤ toRD occurrenceDate ∧
              toRD occurrenceDate ≤ toRD targetDate
          then some occurrenceDate else Option.none)
    | .weekly =>
      -- const dayOfWeek = template.recurrenceDay !== null ? ... : getDay()
      let dayOfWeek : Int :=
        match template.recurrenceDay with
        | some r => r
        | Option.none => templateDate.getDay
      -- currentDate.setDate(getDate() + ((dayOfWeek - getDay() + 7) % 7))
      -- (JS `%` truncates toward zero: `Int.tmod`)
      let currentDate :=
        addDays templateDate ((dayOfWeek - templateDate.getDay + 7).tmod 7)
      collectEvery 7 templateDate targetDate
        (toRD targetDate + 1 - toRD currentDate) currentDate
    | .biweekly =>
      let biweeklyDay : Int :=
        match template.recurrenceDay with
        | some r => r
        | Option.none => templateDate.getDay
      let biweeklyDate :=
        addDays templateDate ((biweeklyDay - templateDate.getDay + 7).tmod 7)
      collectEvery 14 templateDate targetDate
        (toRD targetDate + 1 - toRD biweeklyDate) biweeklyDate
    | .none => []

/-- `DatabaseStorage.getRecurringTransactions` (lines 644–653): the user's
rows with `isRecurring = true`.  The query's `orderBy createdAt desc` is
modelled as the stored row order; none of the verified properties depend on
the processing order. -/
def getRecurringTransactions (userId : String) (db : List Txn) : List Txn :=
  db.filter (fun r => decide (r.userId = userId ∧ r.isRecurring = true))

/-- The duplicate-detection query of `processRecurringTransactions`
(lines 663–677): any row with the same `userId`, the template's `title`, whose
`date` falls on the calendar day of `nextDate`
(`sql DATE(transactions.date) = nextDateStr`), and — only when
`template.categoryId` is truthy — the template's `categoryId`. -/
def existsMatch (db : List Txn) (userId : String) (template : Txn)
    (nextDate : CalDate) : Bool :=
  db.any fun r => decide (
    r.userId = userId ∧ r.title = template.title ∧ r.date = some nextDate ∧
    (strTruthy template.categoryId = true → r.categoryId = template.categoryId))

/-- The row inserted for one occurrence (lines 679–697): fields copied from
the template (`categoryId || null`, `notes || null`), `date` set to the
occurrence date, and the recurrence state reset. -/
def mkInstance (template : Txn) (nextDate : CalDate) : Txn :=
  { userId := template.userId
    categoryId := orNullStr template.categoryId
    title := template.title
    amount := template.amount
    date := some nextDate
    status := TxStatus.unpaid
    notes := orNullStr template.notes
    recurrenceType := RecurrenceType.none
    recurrenceDay := Option.none
    isRecurring := false }

/-- State threaded through one materializer run: the transactions table, the
`createdCount` accumulator, and a counter of awaited persistence operations
(used to address the operation at which a simulated persistence failure is
thrown). -/
structure RunState where
  db : List Txn
  created : Nat
  ops : Nat
deriving DecidableEq, Repr

/-- The inner `for (const nextDate of nextDates)` loop of
`processRecurringTransactions` (lines 662–700): check-then-create for each
candidate occurrence.  `failAt = some k` makes the `k`-th awaited persistence
operation of the run throw; the `Except.error` carries the state at the throw
(nothing is rolled back). -/
def stepDates (failAt : Option Nat) (userId : String) (template : Txn) :
    List CalDate → RunState → Except RunState RunState
  | [], s => .ok s
  | nextDate :: rest, s =>
    -- await db.query.transactions.findFirst(...)
    if failAt = some s.ops then .error s
    else
      let s1 : RunState := ⟨s.db, s.created, s.ops + 1⟩
      if existsMatch s1.db userId template nextDate then
        stepDates failAt userId template rest s1
      else
        -- await db.insert(transactions).values({...}); createdCount++
        if failAt = some s1.ops then .error s1
        else
          stepDates failAt userId template rest
            ⟨s1.db ++ [mkInstance template nextDate], s1.created + 1, s1.ops + 1⟩

/-- The outer `for (const template of recurringTransactions)` loop
(lines 659–701); a thrown persistence error propagates out. -/
def stepTemplates (failAt : Option Nat) (userId : String) (targetDate : CalDate) :
    List Txn → RunState → Except RunState RunState
  | [], s => .ok s
  | t :: rest, s =>
    match stepDates failAt userId t (calculateNextRecurrenceDates t targetDate) s with
    | .error e => .error e
    | .ok s1 => stepTemplates failAt userId targetDate rest s1

/-- `DatabaseStorage.processRecurringTransactions` (lines 655–704) with an
explicit failure schedule. -/
def processAux (failAt : Option Nat) (userId : String) (targetDate : CalDate)
    (db : List Txn) : Except RunState RunState :=
  stepTemplates failAt userId targetDate (getRecurringTransactions userId db)
    ⟨db, 0, 0⟩

/-- Extract the state a run ended in, whether it completed or threw. -/
def resState : Except RunState RunState → RunState
  | .ok s => s
  | .error s => s

/-- `processRecurringTransactions(userId, targetDate)` on a failure-free run:
the resulting transaction table and the returned `createdCount`. -/
def processRecurringTransactions (userId : String) (targetDate : CalDate)
    (db : List Txn) : List Txn × Nat :=
  let s := resState (processAux Option.none userId targetDate db)
  (s.db, s.created)

/-- What the `POST /api/transactions/process-recurrence` handler
(`src/unnamed/part_001` lines 281–295) sends back: the created count on
success, or a generic 500 error (no count) when the storage call throws. -/
inductive RecurrenceResponse where
  | ok (createdCount : Nat)
  | serverError
deriving DecidableEq, Repr

/-- The route handler of `src/unnamed/part_001` lines 281–295. -/
def processRecurrenceEndpoint (failAt : Option Nat) (userId : String)
    (targetDate : CalDate) (db : List Txn) : RecurrenceResponse :=
  match processAux failAt userId targetDate db with
  | .ok s => .ok s.created
  | .error _ => .serverError

/-- The duplicate-detection match key of §4.2. -/
def txnKey (r : Txn) : String × String × Option String × Option CalDate :=
  (r.userId, r.title, r.categoryId, r.date)

/-- The occurrence the monthly branch produces for 0-based month index `j`
counted from year `ay`, with nominal day `dom`: day `min dom lastDay` of
that month. -/
def monthlyOcc (ay : Nat) (dom : Int) (j : Nat) : CalDate :=
  ⟨ay + j / 12, j % 12 + 1,
    (min dom (daysInMonth (ay + j / 12) (j % 12 + 1) : Int)).toNat⟩

/-- Number of loop iterations of the monthly branch (`monthOffset` runs from
`0` through `monthsDiff` inclusive; none when `monthsDiff < 0`). -/
def monthsCount (ay am : Nat) (tgt : CalDate) : Nat :=
  if ((tgt.year : Int) - (ay : Int)) * 12 +
      (((tgt.month : Int) - 1) - ((am - 1 : Nat) : Int)) < 0 then 0
  else (((tgt.year : Int) - (ay : Int)) * 12 +
      (((tgt.month : Int) - 1) - ((am - 1 : Nat) : Int))).toNat + 1

/-- Template used for the C2 month-clamp scenario and as C5 counterexample
material. -/
def scenarioMonthly : Txn :=
  { userId := "u", categoryId := Option.none, title := "rent", amount := 10000
    date := some ⟨2024, 1, 31⟩, status := TxStatus.unpaid, notes := Option.none
    recurrenceType := RecurrenceType.monthly, recurrenceDay := some 31
    isRecurring := true }

/-- A recurring template whose `notes` column holds the empty string. -/
def emptyNotesTemplate : Txn :=
  { userId := "u", categoryId := Option.none, title := "rent", amount := 100
    date := some ⟨2024, 1, 15⟩, status := TxStatus.unpaid, notes := some ""
    recurrenceType := RecurrenceType.monthly, recurrenceDay := Option.none
    isRecurring := true }

/-- Template used for the C3 weekly-alignment scenario. -/
def scenarioWeekly : Txn :=
  { userId := "u", categoryId := Option.none, title := "gym", amount := 5000
    date := some ⟨2024, 6, 5⟩, status := TxStatus.unpaid, notes := Option.none
    recurrenceType := RecurrenceType.weekly, recurrenceDay := some 3
    isRecurring := true }

/-- Written from the spec (§4.1, monthly / monthly_variable), for comparison
with the implementation: for every month from the anchor's month through the
target's month inclusive, the occurrence is the day
`min(nominalDay, lastDayOfThatMonth)` of that month; keep only occurrences
within `[anchorDate, targetDate]`. -/
def monthlySpecDates (nominal : Nat) (anchor target : CalDate) : List CalDate :=
  if anchor.year * 12 + (anchor.month - 1) ≤
      target.year * 12 + (target.month - 1) then
    (List.range (target.year * 12 + (target.month - 1) -
        (anchor.year * 12 + (anchor.month - 1)) + 1)).filterMap
      (fun k =>
        let idx := anchor.year * 12 + (anchor.month - 1) + k
        let y := idx / 12
        let m := idx % 12 + 1
        let d := min nominal (daysInMonth y m)
        if toRD anchor ≤ toRD ⟨y, m, d⟩ ∧ toRD ⟨y, m, d⟩ ≤ toRD target
        then some ⟨y, m, d⟩ else Option.none)
  else []

/-! ## Calendar arithmetic lemmas -/

theorem daysInMonth_pos (y m : Nat) : 1 ≤ daysInMonth y m := by
  unfold daysInMonth; split_ifs <;> omega

theorem daysInMonth_le (y m : Nat) : daysInMonth y m ≤ 31 := by
  unfold daysInMonth; split_ifs <;> omega

theorem isLeap_iff (y : Nat) :
    isLeap y = true ↔ ((y % 4 = 0 ∧ ¬ y % 100 = 0) ∨ y % 400 = 0) := by
  simp [isLeap]
theorem valid_mk_iff (y m dd : Nat) :
    (CalDate.mk y m dd).Valid ↔
      1 ≤ m ∧ m ≤ 12 ∧ 1 ≤ dd ∧ dd ≤ daysInMonth y m :=
  Iff.rfl

theorem valid_def (d : CalDate) :
    d.Valid ↔ 1 ≤ d.month ∧ d.month ≤ 12 ∧ 1 ≤ d.day ∧
      d.day ≤ daysInMonth d.year d.month :=
  Iff.rfl

theorem toRD_mk (y m dd : Nat) :
    toRD ⟨y, m, dd⟩ = daysBeforeYear y + daysBeforeMonth y m + dd :=
  rfl

theorem daysBeforeMonth_succ (y m : Nat) (h1 : 1 ≤ m) :
    daysBeforeMonth y (m + 1) = daysBeforeMonth y m + daysInMonth y m := by
  match m, h1 with
  | j + 1, _ => rfl

set_option maxHeartbeats 1000000 in
theorem daysBeforeYear_succ (y : Nat) :
    daysBeforeYear (y + 1) = daysBeforeYear y + (if isLeap y then 366 else 365) := by
  have h := isLeap_iff y
  by_cases hL : isLeap y = true
  · rw [if_pos hL]
    have hp : (y % 4 = 0 ∧ ¬ y % 100 = 0) ∨ y % 400 = 0 := h.mp hL
    unfold daysBeforeYear
    omega
  · rw [if_neg hL]
    have hp : ¬ ((y % 4 = 0 ∧ ¬ y % 100 = 0) ∨ y % 400 = 0) := fun c => hL (h.mpr c)
    push_neg at hp
    unfold daysBeforeYear
    omega

theorem yearDays (y : Nat) :
    daysBeforeMonth y 12 + daysInMonth y 12 = if isLeap y then 366 else 365 := by
  rcases Bool.eq_false_or_eq_true (isLeap y) with hL | hL <;>
    norm_num [daysBeforeMonth, daysInMonth, hL]

theorem nextDay_mk_lt (y m dd : Nat) (h : dd < daysInMonth y m) :
    nextDay ⟨y, m, dd⟩ = ⟨y, m, dd + 1⟩ := by
  simp only [nextDay, if_pos h]

theorem nextDay_mk_mid (y m dd : Nat) (h1 : ¬ dd < daysInMonth y m) (h2 : m < 12) :
    nextDay ⟨y, m, dd⟩ = ⟨y, m + 1, 1⟩ := by
  simp only [nextDay, if_neg h1, if_pos h2]

theorem nextDay_mk_end (y m dd : Nat) (h1 : ¬ dd < daysInMonth y m) (h2 : ¬ m < 12) :
    nextDay ⟨y, m, dd⟩ = ⟨y + 1, 1, 1⟩ := by
  simp only [nextDay, if_neg h1, if_neg h2]

theorem prevDay_mk_first (y mm : Nat) (h : 1 < mm) :
    prevDay ⟨y, mm, 1⟩ = ⟨y, mm - 1, daysInMonth y (mm - 1)⟩ := by
  simp only [prevDay]
  rw [if_neg (by omega : ¬ (1:Nat) < 1), if_pos h]

theorem prevDay_mk_jan (y : Nat) :
    prevDay ⟨y, 1, 1⟩ = ⟨y - 1, 12, 31⟩ := by
  simp only [prevDay]
  rw [if_neg (by omega : ¬ (1:Nat) < 1), if_neg (by omega : ¬ (1:Nat) < 1)]

theorem nextDay_valid_toRD (d : CalDate) (h : d.Valid) :
    (nextDay d).Valid ∧ toRD (nextDay d) = toRD d + 1 := by
  obtain ⟨y, m, dd⟩ := d
  rw [valid_mk_iff] at h
  obtain ⟨h1, h2, h3, h4⟩ := h
  by_cases hd : dd < daysInMonth y m
  · rw [nextDay_mk_lt y m dd hd]
    refine ⟨?_, ?_⟩
    · rw [valid_mk_iff]; omega
    · rw [toRD_mk, toRD_mk]; omega
  · by_cases hm : m < 12
    · rw [nextDay_mk_mid y m dd hd hm]
      have hstep := daysBeforeMonth_succ y m h1
      have hpos := daysInMonth_pos y (m + 1)
      refine ⟨?_, ?_⟩
      · rw [valid_mk_iff]; omega
      · rw [toRD_mk, toRD_mk]; omega
    · have hm12 : m = 12 := by omega
      subst hm12
      rw [nextDay_mk_end y 12 dd hd (by omega)]
      have hdim : daysInMonth y 12 = 31 := by norm_num [daysInMonth]
      have hY := daysBeforeYear_succ y
      have hyd := yearDays y
      have hdb1 : daysBeforeMonth (y + 1) 1 = 0 := rfl
      have hpos := daysInMonth_pos (y + 1) 1
      refine ⟨?_, ?_⟩
      · rw [valid_mk_iff]; omega
      · rw [toRD_mk, toRD_mk]
        by_cases hL : isLeap y = true
        · rw [if_pos hL] at hY hyd; omega
        · rw [if_neg hL] at hY hyd; omega

theorem iterate_nextDay_valid_toRD (n : Nat) (d : CalDate) (h : d.Valid) :
    (Nat.iterate nextDay n d).Valid ∧
      toRD (Nat.iterate nextDay n d) = toRD d + n := by
  induction n with
  | zero => simpa using h
  | succ k ih =>
    rw [Function.iterate_succ_apply']
    have hk := nextDay_valid_toRD _ ih.1
    exact ⟨hk.1, by omega⟩

theorem addDays_nat_valid_toRD (d : CalDate) (h : d.Valid) (n : Nat) :
    (addDays d (n : Int)).Valid ∧ toRD (addDays d (n : Int)) = toRD d + n := by
  unfold addDays
  rw [if_pos (by omega)]
  simpa using iterate_nextDay_valid_toRD n d h

theorem iterate_nextDay_within (y m : Nat) :
    ∀ k, k < daysInMonth y m → Nat.iterate nextDay k ⟨y, m, 1⟩ = ⟨y, m, 1 + k⟩ := by
  intro k
  induction k with
  | zero => intro _; simp
  | succ j ih =>
    intro hj
    rw [Function.iterate_succ_apply', ih (by omega), nextDay_mk_lt _ _ _ (by omega)]
    congr 1

theorem mkDate_eq (y mIdx : Nat) (day : Int) (h1 : 1 ≤ day)
    (h2 : day ≤ (daysInMonth (y + mIdx / 12) (mIdx % 12 + 1) : Int)) :
    mkDate y mIdx day = ⟨y + mIdx / 12, mIdx % 12 + 1, day.toNat⟩ := by
  unfold mkDate addDays
  rw [if_pos (by omega)]
  rw [iterate_nextDay_within _ _ _ (by omega)]
  congr 1
  omega

theorem mkDate_valid (y mIdx : Nat) (day : Int) (h1 : 1 ≤ day)
    (h2 : day ≤ (daysInMonth (y + mIdx / 12) (mIdx % 12 + 1) : Int)) :
    (mkDate y mIdx day).Valid := by
  rw [mkDate_eq y mIdx day h1 h2, valid_mk_iff]
  omega

theorem mkDate_zero (y mIdx : Nat) :
    mkDate y mIdx 0 = prevDay ⟨y + mIdx / 12, mIdx % 12 + 1, 1⟩ := by
  unfold mkDate addDays
  rw [if_neg (by omega)]
  norm_num

theorem lastDay_eq (y M : Nat) (h1 : 1 ≤ M) (h2 : M ≤ 12) :
    (mkDate y M 0).day = daysInMonth y M := by
  rw [mkDate_zero]
  by_cases hM : M ≤ 11
  · have hdiv : M / 12 = 0 := by omega
    have hmod : M % 12 = M := by omega
    rw [hdiv, hmod]
    simp only [Nat.add_zero]
    rw [prevDay_mk_first y (M + 1) (by omega)]
    simp
  · have hM12 : M = 12 := by omega
    subst hM12
    norm_num [prevDay_mk_jan, daysInMonth]

theorem nextDay_monthEnd (ay j : Nat) :
    nextDay ⟨ay + j / 12, j % 12 + 1, daysInMonth (ay + j / 12) (j % 12 + 1)⟩ =
      ⟨ay + (j + 1) / 12, (j + 1) % 12 + 1, 1⟩ := by
  by_cases hj : j % 12 < 11
  · rw [nextDay_mk_mid _ _ _ (by omega) (by omega)]
    simp only [CalDate.mk.injEq]
    refine ⟨by omega, by omega, trivial⟩
  · rw [nextDay_mk_end _ _ _ (by omega) (by omega)]
    simp only [CalDate.mk.injEq]
    refine ⟨by omega, by omega, trivial⟩

theorem toRD_monthEnd_succ (ay j : Nat) :
    toRD ⟨ay + (j + 1) / 12, (j + 1) % 12 + 1, 1⟩ =
      toRD ⟨ay + j / 12, j % 12 + 1, daysInMonth (ay + j / 12) (j % 12 + 1)⟩ + 1 := by
  rw [← nextDay_monthEnd]
  exact (nextDay_valid_toRD _ ((valid_mk_iff _ _ _).mpr
    ⟨by omega, by omega, daysInMonth_pos _ _, le_refl _⟩)).2

/-! ## Weekly / biweekly loop lemmas -/

theorem collectEvery_mem (stepLen : Nat) (tpl tgt : CalDate) :
    ∀ (fuel : Nat) (cur : CalDate), cur.Valid →
      ∀ e ∈ collectEvery stepLen tpl tgt fuel cur,
        e.Valid ∧ toRD tpl ≤ toRD e ∧ toRD e ≤ toRD tgt ∧
          ∃ k : Nat, toRD e = toRD cur + stepLen * k := by
  intro fuel
  induction fuel with
  | zero => intro cur _ e he; simp [collectEvery] at he
  | succ f ih =>
    intro cur hv e he
    simp only [collectEvery] at he
    by_cases h1 : toRD cur ≤ toRD tgt
    · rw [if_pos h1] at he
      have hstep := addDays_nat_valid_toRD cur hv stepLen
      rcases List.mem_append.mp he with hin | hin
      · by_cases h2 : toRD tpl ≤ toRD cur
        · rw [if_pos h2] at hin
          simp at hin
          subst hin
          exact ⟨hv, h2, h1, 0, by omega⟩
        · rw [if_neg h2] at hin
          simp at hin
      · obtain ⟨hv2, htl, htg, k, hk⟩ := ih (addDays cur (stepLen : Int)) hstep.1 e hin
        refine ⟨hv2, htl, htg, k + 1, ?_⟩
        rw [Nat.mul_succ]
        omega
    · rw [if_neg h1] at he
      simp at he

theorem collectEvery_head (stepLen : Nat) (tpl tgt : CalDate) (fuel : Nat)
    (cur : CalDate) (htpl : toRD tpl ≤ toRD cur) :
    ∀ e, (collectEvery stepLen tpl tgt fuel cur).head? = some e → e = cur := by
  intro e he
  cases fuel with
  | zero => simp [collectEvery] at he
  | succ f =>
    simp only [collectEvery] at he
    by_cases h1 : toRD cur ≤ toRD tgt
    · rw [if_pos h1, if_pos htpl] at he
      simp at he
      exact he.symm
    · rw [if_neg h1] at he
      simp at he

theorem collectEvery_chain (stepLen : Nat) (tpl tgt : CalDate) :
    ∀ (fuel : Nat) (cur : CalDate), cur.Valid → toRD tpl ≤ toRD cur →
      List.Chain' (fun a b => toRD b = toRD a + stepLen)
        (collectEvery stepLen tpl tgt fuel cur) := by
  intro fuel
  induction fuel with
  | zero => intro cur _ _; simp [collectEvery]
  | succ f ih =>
    intro cur hv htpl
    simp only [collectEvery]
    by_cases h1 : toRD cur ≤ toRD tgt
    · rw [if_pos h1, if_pos htpl]
      have hstep := addDays_nat_valid_toRD cur hv stepLen
      have hnext : toRD tpl ≤ toRD (addDays cur (stepLen : Int)) := by omega
      rw [List.singleton_append, List.chain'_cons']
      refine ⟨?_, ih _ hstep.1 hnext⟩
      intro b hb
      have hbcur := collectEvery_head stepLen tpl tgt f _ hnext b hb
      subst hbcur
      omega
    · rw [if_neg h1]
      simp

theorem collectEvery_complete (stepLen : Nat) (tpl tgt : CalDate) (hs : 1 ≤ stepLen) :
    ∀ (fuel : Nat) (cur : CalDate), cur.Valid → toRD tpl ≤ toRD cur →
      toRD tgt < toRD cur + fuel →
      ∀ k : Nat, toRD cur + stepLen * k ≤ toRD tgt →
        ∃ e ∈ collectEvery stepLen tpl tgt fuel cur,
          toRD e = toRD cur + stepLen * k := by
  intro fuel
  induction fuel with
  | zero =>
    intro cur _ _ hf k hk
    have : 0 ≤ stepLen * k := Nat.zero_le _
    omega
  | succ f ih =>
    intro cur hv htpl hf k hk
    have h1 : toRD cur ≤ toRD tgt := by
      have : 0 ≤ stepLen * k := Nat.zero_le _
      omega
    simp only [collectEvery]
    rw [if_pos h1, if_pos htpl]
    cases k with
    | zero =>
      refine ⟨cur, ?_, by simp⟩
      simp
    | succ j =>
      have hstep := addDays_nat_valid_toRD cur hv stepLen
      have hnext : toRD tpl ≤ toRD (addDays cur (stepLen : Int)) := by omega
      have hf2 : toRD tgt < toRD (addDays cur (stepLen : Int)) + f := by omega
      have hk2 : toRD (addDays cur (stepLen : Int)) + stepLen * j ≤ toRD tgt := by
        rw [Nat.mul_succ] at hk
        omega
      obtain ⟨e, he, heq⟩ := ih _ hstep.1 hnext hf2 j hk2
      refine ⟨e, ?_, ?_⟩
      · rw [List.singleton_append]
        exact List.mem_cons_of_mem _ he
      · rw [Nat.mul_succ]
        omega

theorem collectEvery_pairwise (stepLen : Nat) (tpl tgt : CalDate) (hs : 1 ≤ stepLen) :
    ∀ (fuel : Nat) (cur : CalDate), cur.Valid →
      List.Pairwise (fun a b => toRD a < toRD b)
        (collectEvery stepLen tpl tgt fuel cur) := by
  intro fuel
  induction fuel with
  | zero => intro cur _; simp [collectEvery]
  | succ f ih =>
    intro cur hv
    simp only [collectEvery]
    by_cases h1 : toRD cur ≤ toRD tgt
    · rw [if_pos h1]
      have hstep := addDays_nat_valid_toRD cur hv stepLen
      rw [List.pairwise_append]
      refine ⟨?_, ih _ hstep.1, ?_⟩
      · by_cases h2 : toRD tpl ≤ toRD cur <;> simp [h2]
      · intro a ha b hb
        by_cases h2 : toRD tpl ≤ toRD cur
        · rw [if_pos h2] at ha
          simp at ha
          subst ha
          obtain ⟨_, _, _, k, hk⟩ :=
            collectEvery_mem stepLen tpl tgt f _ hstep.1 b hb
          have : 0 ≤ stepLen * k := Nat.zero_le _
          omega
        · rw [if_neg h2] at ha
          simp at ha
    · rw [if_neg h1]; simp

theorem addDays_int_valid_toRD (d : CalDate) (h : d.Valid) (n : Int) (hn : 0 ≤ n) :
    (addDays d n).Valid ∧ toRD (addDays d n) = toRD d + n.toNat := by
  have hcast := addDays_nat_valid_toRD d h n.toNat
  rwa [Int.toNat_of_nonneg hn] at hcast

theorem getDay_def (d : CalDate) : d.getDay = ((toRD d + 5) % 7 : Nat) :=
  rfl

theorem getDay_bounds (d : CalDate) : 0 ≤ d.getDay ∧ d.getDay < 7 := by
  rw [getDay_def]
  constructor
  · exact Int.natCast_nonneg _
  · exact_mod_cast Nat.mod_lt _ (by omega)

/-! ## Monthly branch lemmas -/

theorem monthlyOcc_valid (ay : Nat) (dom : Int) (j : Nat) (hdom : 1 ≤ dom) :
    (monthlyOcc ay dom j).Valid := by
  unfold monthlyOcc
  rw [valid_mk_iff]
  have := daysInMonth_pos (ay + j / 12) (j % 12 + 1)
  rw [Int.min_def]
  split_ifs <;> omega

theorem monthlyOcc_lt_succ (ay : Nat) (dom : Int) (j : Nat) (hdom : 1 ≤ dom) :
    toRD (monthlyOcc ay dom j) < toRD (monthlyOcc ay dom (j + 1)) := by
  have hmes := toRD_monthEnd_succ ay j
  rw [toRD_mk, toRD_mk] at hmes
  unfold monthlyOcc
  rw [toRD_mk, toRD_mk, Int.min_def, Int.min_def]
  have hp1 := daysInMonth_pos (ay + j / 12) (j % 12 + 1)
  have hp2 := daysInMonth_pos (ay + (j + 1) / 12) ((j + 1) % 12 + 1)
  split_ifs <;> omega

theorem monthlyOcc_strictMono (ay : Nat) (dom : Int) (hdom : 1 ≤ dom) :
    StrictMono (fun j => toRD (monthlyOcc ay dom j)) :=
  strictMono_nat_of_lt_succ (fun j => monthlyOcc_lt_succ ay dom j hdom)

/-- The monthly / monthly_variable branch in canonical form: one clamped
occurrence per month index, filtered to `[anchor, target]`. -/
theorem calc_monthly (t : Txn) (ay am ad : Nat) (tgt : CalDate) (dom : Int)
    (hd : t.date = some ⟨ay, am, ad⟩)
    (hty : t.recurrenceType = RecurrenceType.monthly ∨
           t.recurrenceType = RecurrenceType.monthly_variable)
    (hva : (CalDate.mk ay am ad).Valid)
    (hdom :
      (t.recurrenceDay = Option.none ∧ dom = (ad : Int)) ∨
      (t.recurrenceDay = some 0 ∧ dom = (ad : Int)) ∨
      (∃ r : Int, t.recurrenceDay = some r ∧ 1 ≤ r ∧ dom = r)) :
    calculateNextRecurrenceDates t tgt =
      (List.range (monthsCount ay am tgt)).filterMap
        (fun k =>
          if toRD ⟨ay, am, ad⟩ ≤ toRD (monthlyOcc ay dom (am - 1 + k)) ∧
              toRD (monthlyOcc ay dom (am - 1 + k)) ≤ toRD tgt
          then some (monthlyOcc ay dom (am - 1 + k)) else Option.none) := by
  have hva' := hva
  rw [valid_mk_iff] at hva'
  obtain ⟨ham1, ham2, had1, had2⟩ := hva'
  have hdom1 : 1 ≤ dom := by
    rcases hdom with ⟨_, hq⟩ | ⟨_, hq⟩ | ⟨r, _, hr, hq⟩ <;> omega
  rcases hty with hty | hty <;>
    rcases hdom with ⟨hrd, hq⟩ | ⟨hrd, hq⟩ | ⟨r, hrd, hr1, hq⟩ <;>
  · subst hq
    try have hr0 : ¬ (dom = 0) := by omega
    simp only [calculateNextRecurrenceDates, hd, hty, hrd, eq_self_iff_true,
      if_true]
    try simp only [hr0, if_false]
    unfold monthsCount
    apply List.filterMap_congr
    intro k hk
    have h1 := mkDate_eq ay (am - 1 + k) 1 (by omega)
      (by exact_mod_cast daysInMonth_pos _ _)
    simp only [Int.toNat_one] at h1
    rw [h1]
    simp only [Nat.add_sub_cancel]
    rw [lastDay_eq (ay + (am - 1 + k) / 12) ((am - 1 + k) % 12 + 1)
      (by omega) (by omega)]
    have e1 : (am - 1 + k) % 12 / 12 = 0 := by omega
    have e2 : (am - 1 + k) % 12 % 12 = (am - 1 + k) % 12 := by omega
    have h2 := mkDate_eq (ay + (am - 1 + k) / 12) ((am - 1 + k) % 12) _
      (le_min hdom1 (show (1 : Int) ≤
          ((daysInMonth (ay + (am - 1 + k) / 12) ((am - 1 + k) % 12 + 1) : Nat) : Int)
        from by exact_mod_cast daysInMonth_pos _ _))
      (by simp only [e1, e2, Nat.add_zero]; exact min_le_right _ _)
    simp only [e1, e2, Nat.add_zero] at h2
    rw [h2]
    simp only [monthlyOcc]

/-- The weekly branch in canonical form. -/
theorem calc_weekly (t : Txn) (anchor tgt : CalDate) (dow : Int)
    (hd : t.date = some anchor)
    (hty : t.recurrenceType = RecurrenceType.weekly)
    (hdw : (t.recurrenceDay = Option.none ∧ dow = anchor.getDay) ∨
           t.recurrenceDay = some dow) :
    calculateNextRecurrenceDates t tgt =
      collectEvery 7 anchor tgt
        (toRD tgt + 1 -
          toRD (addDays anchor ((dow - anchor.getDay + 7).tmod 7)))
        (addDays anchor ((dow - anchor.getDay + 7).tmod 7)) := by
  rcases hdw with ⟨hrd, hq⟩ | hrd
  · subst hq
    simp only [calculateNextRecurrenceDates, hd, hty, hrd]
  · simp only [calculateNextRecurrenceDates, hd, hty, hrd]

/-- The biweekly branch in canonical form. -/
theorem calc_biweekly (t : Txn) (anchor tgt : CalDate) (dow : Int)
    (hd : t.date = some anchor)
    (hty : t.recurrenceType = RecurrenceType.biweekly)
    (hdw : (t.recurrenceDay = Option.none ∧ dow = anchor.getDay) ∨
           t.recurrenceDay = some dow) :
    calculateNextRecurrenceDates t tgt =
      collectEvery 14 anchor tgt
        (toRD tgt + 1 -
          toRD (addDays anchor ((dow - anchor.getDay + 7).tmod 7)))
        (addDays anchor ((dow - anchor.getDay + 7).tmod 7)) := by
  rcases hdw with ⟨hrd, hq⟩ | hrd
  · subst hq
    simp only [calculateNextRecurrenceDates, hd, hty, hrd]
  · simp only [calculateNextRecurrenceDates, hd, hty, hrd]

/-- Facts about the first loop date of the weekly/biweekly branches: the
offset is the number of days (`0..6`) from the anchor to the first occurrence
of the target weekday, so the start date is valid, at most 6 days after the
anchor, and falls on the target weekday. -/
theorem weekly_start (anchor : CalDate) (hva : anchor.Valid) (dow : Int)
    (h0 : 0 ≤ dow) (h7 : dow < 7) :
    0 ≤ (dow - anchor.getDay + 7).tmod 7 ∧
    ((dow - anchor.getDay + 7).tmod 7).toNat < 7 ∧
    (addDays anchor ((dow - anchor.getDay + 7).tmod 7)).Valid ∧
    toRD (addDays anchor ((dow - anchor.getDay + 7).tmod 7)) =
      toRD anchor + ((dow - anchor.getDay + 7).tmod 7).toNat ∧
    (addDays anchor ((dow - anchor.getDay + 7).tmod 7)).getDay = dow := by
  obtain ⟨hg0, hg7⟩ := getDay_bounds anchor
  have hpos : 0 ≤ dow - anchor.getDay + 7 := by omega
  have hmod : (dow - anchor.getDay + 7).tmod 7 = (dow - anchor.getDay + 7) % 7 :=
    Int.tmod_eq_emod hpos (by omega)
  have hoff0 : 0 ≤ (dow - anchor.getDay + 7).tmod 7 := by rw [hmod]; omega
  have hadd := addDays_int_valid_toRD anchor hva _ hoff0
  refine ⟨hoff0, by rw [hmod]; omega, hadd.1, hadd.2, ?_⟩
  rw [getDay_def, hadd.2, hmod]
  have hgd : anchor.getDay = ((toRD anchor + 5) % 7 : Nat) := getDay_def anchor
  omega

/-! ## Run-state lemmas -/

theorem resState_ok (s : RunState) : resState (.ok s) = s := rfl

theorem resState_error (s : RunState) : resState (.error s) = s := rfl

/-- Frame/shape of the per-template date loop: it only appends rows, each of
which is `mkInstance` of the template at one of the candidate dates, and
`createdCount` counts exactly the appended rows. -/
theorem stepDates_shape (failAt : Option Nat) (u : String) (tp : Txn) :
    ∀ (dates : List CalDate) (s : RunState),
      ∃ new : List Txn,
        (resState (stepDates failAt u tp dates s)).db = s.db ++ new ∧
        (resState (stepDates failAt u tp dates s)).created =
          s.created + new.length ∧
        ∀ x ∈ new, ∃ nd ∈ dates, x = mkInstance tp nd := by
  intro dates
  induction dates with
  | nil =>
    intro s
    exact ⟨[], by simp [stepDates, resState], by simp [stepDates, resState],
      by simp⟩
  | cons nd rest ih =>
    intro s
    simp only [stepDates]
    by_cases hf1 : failAt = some s.ops
    · rw [if_pos hf1]
      exact ⟨[], by simp [resState], by simp [resState], by simp⟩
    · rw [if_neg hf1]
      by_cases hex : existsMatch s.db u tp nd = true
      · rw [if_pos hex]
        obtain ⟨new, h1, h2, h3⟩ := ih ⟨s.db, s.created, s.ops + 1⟩
        refine ⟨new, by simpa using h1, by simpa using h2, ?_⟩
        intro x hx
        obtain ⟨nd2, hnd2, hx2⟩ := h3 x hx
        exact ⟨nd2, List.mem_cons_of_mem _ hnd2, hx2⟩
      · rw [if_neg hex]
        by_cases hf2 : failAt = some (s.ops + 1)
        · rw [if_pos hf2]
          exact ⟨[], by simp [resState], by simp [resState], by simp⟩
        · rw [if_neg hf2]
          obtain ⟨new, h1, h2, h3⟩ :=
            ih ⟨s.db ++ [mkInstance tp nd], s.created + 1, s.ops + 1 + 1⟩
          refine ⟨mkInstance tp nd :: new, ?_, ?_, ?_⟩
          · simpa [List.append_assoc] using h1
          · simp only [List.length_cons]
            simp at h2
            omega
          · intro x hx
            rcases List.mem_cons.mp hx with hx | hx
            · exact ⟨nd, List.mem_cons_self _ _, hx⟩
            · obtain ⟨nd2, hnd2, hx2⟩ := h3 x hx
              exact ⟨nd2, List.mem_cons_of_mem _ hnd2, hx2⟩

/-- Frame/shape of the template loop. -/
theorem stepTemplates_shape (failAt : Option Nat) (u : String) (tgt : CalDate) :
    ∀ (ts : List Txn) (s : RunState),
      ∃ new : List Txn,
        (resState (stepTemplates failAt u tgt ts s)).db = s.db ++ new ∧
        (resState (stepTemplates failAt u tgt ts s)).created =
          s.created + new.length ∧
        ∀ x ∈ new, ∃ tp ∈ ts, ∃ nd ∈ calculateNextRecurrenceDates tp tgt,
          x = mkInstance tp nd := by
  intro ts
  induction ts with
  | nil =>
    intro s
    exact ⟨[], by simp [stepTemplates, resState],
      by simp [stepTemplates, resState], by simp⟩
  | cons tp rest ih =>
    intro s
    simp only [stepTemplates]
    obtain ⟨new1, h11, h12, h13⟩ :=
      stepDates_shape failAt u tp (calculateNextRecurrenceDates tp tgt) s
    cases hres : stepDates failAt u tp (calculateNextRecurrenceDates tp tgt) s with
    | error e =>
      rw [hres] at h11 h12
      simp only [resState_error] at h11 h12
      refine ⟨new1, by simpa using h11, by simpa using h12, ?_⟩
      intro x hx
      obtain ⟨nd, hnd, hx2⟩ := h13 x hx
      exact ⟨tp, List.mem_cons_self _ _, nd, hnd, hx2⟩
    | ok s1 =>
      rw [hres] at h11 h12
      simp only [resState_ok] at h11 h12
      obtain ⟨new2, h21, h22, h23⟩ := ih s1
      refine ⟨new1 ++ new2, ?_, ?_, ?_⟩
      · rw [h21, h11, List.append_assoc]
      · rw [h22, h12, List.length_append]
        omega
      · intro x hx
        rcases List.mem_append.mp hx with hx | hx
        · obtain ⟨nd, hnd, hx2⟩ := h13 x hx
          exact ⟨tp, List.mem_cons_self _ _, nd, hnd, hx2⟩
        · obtain ⟨tp2, htp2, nd, hnd, hx2⟩ := h23 x hx
          exact ⟨tp2, List.mem_cons_of_mem _ htp2, nd, hnd, hx2⟩

/-- Semantics of the duplicate-detection query. -/
theorem existsMatch_iff (db : List Txn) (u : String) (tp : Txn) (nd : CalDate) :
    existsMatch db u tp nd = true ↔
      ∃ r ∈ db, r.userId = u ∧ r.title = tp.title ∧ r.date = some nd ∧
        (strTruthy tp.categoryId = true → r.categoryId = tp.categoryId) := by
  unfold existsMatch
  rw [List.any_eq_true]
  constructor
  · rintro ⟨r, hr, hp⟩
    exact ⟨r, hr, of_decide_eq_true hp⟩
  · rintro ⟨r, hr, hp⟩
    exact ⟨r, hr, decide_eq_true hp⟩

theorem existsMatch_of_mem (db : List Txn) (u : String) (tp : Txn)
    (nd : CalDate) (r : Txn) (hr : r ∈ db)
    (h1 : r.userId = u) (h2 : r.title = tp.title) (h3 : r.date = some nd)
    (h4 : strTruthy tp.categoryId = true → r.categoryId = tp.categoryId) :
    existsMatch db u tp nd = true :=
  (existsMatch_iff db u tp nd).mpr ⟨r, hr, h1, h2, h3, h4⟩

theorem existsMatch_mono (db e : List Txn) (u : String) (tp : Txn)
    (nd : CalDate) (h : existsMatch db u tp nd = true) :
    existsMatch (db ++ e) u tp nd = true := by
  unfold existsMatch at h ⊢
  rw [List.any_append, h, Bool.true_or]

theorem orNullStr_of_truthy (o : Option String) (h : strTruthy o = true) :
    orNullStr o = o := by
  cases o with
  | none => simp [strTruthy] at h
  | some c =>
    simp only [strTruthy] at h
    simp at h
    simp [orNullStr, h]

/-- A freshly inserted instance satisfies its own duplicate-detection query. -/
theorem mkInstance_matches (tp : Txn) (nd : CalDate) :
    (mkInstance tp nd).userId = tp.userId ∧
    (mkInstance tp nd).title = tp.title ∧
    (mkInstance tp nd).date = some nd ∧
    (strTruthy tp.categoryId = true →
      (mkInstance tp nd).categoryId = tp.categoryId) := by
  refine ⟨rfl, rfl, rfl, ?_⟩
  intro hct
  simp only [mkInstance]
  exact orNullStr_of_truthy _ hct

theorem existsMatch_self (db : List Txn) (u : String) (tp : Txn) (nd : CalDate)
    (hu : tp.userId = u) :
    existsMatch (db ++ [mkInstance tp nd]) u tp nd = true := by
  obtain ⟨m1, m2, m3, m4⟩ := mkInstance_matches tp nd
  exact existsMatch_of_mem _ u tp nd (mkInstance tp nd)
    (List.mem_append_right _ (List.mem_singleton_self _))
    (by rw [m1, hu]) m2 m3 m4

/-- A failure-free date loop returns `.ok`. -/
theorem stepDates_noFail (u : String) (tp : Txn) :
    ∀ (dates : List CalDate) (s : RunState),
      stepDates Option.none u tp dates s =
        .ok (resState (stepDates Option.none u tp dates s)) := by
  intro dates
  induction dates with
  | nil => intro s; rfl
  | cons nd rest ih =>
    intro s
    simp only [stepDates]
    rw [if_neg (by simp)]
    by_cases hex : existsMatch s.db u tp nd = true
    · rw [if_pos hex]; exact ih _
    · rw [if_neg hex, if_neg (by simp)]; exact ih _

/-- A failure-free run returns `.ok`. -/
theorem stepTemplates_noFail (u : String) (tgt : CalDate) :
    ∀ (ts : List Txn) (s : RunState),
      stepTemplates Option.none u tgt ts s =
        .ok (resState (stepTemplates Option.none u tgt ts s)) := by
  intro ts
  induction ts with
  | nil => intro s; rfl
  | cons tp rest ih =>
    intro s
    cases hres : stepDates Option.none u tp
        (calculateNextRecurrenceDates tp tgt) s with
    | error e =>
      have hok := stepDates_noFail u tp (calculateNextRecurrenceDates tp tgt) s
      rw [hres] at hok
      exact absurd hok (by simp)
    | ok s1 =>
      simp only [stepTemplates, hres]
      exact ih s1

/-- After the date loop of a failure-free run, every candidate date of the
template has a matching transaction in the resulting table. -/
theorem stepDates_saturate (u : String) (tp : Txn) (hu : tp.userId = u) :
    ∀ (dates : List CalDate) (s : RunState), ∀ nd ∈ dates,
      existsMatch (resState (stepDates Option.none u tp dates s)).db
        u tp nd = true := by
  intro dates
  induction dates with
  | nil => intro s nd h; simp at h
  | cons nd0 rest ih =>
    intro s nd hnd
    simp only [stepDates]
    rw [if_neg (by simp)]
    by_cases hex : existsMatch s.db u tp nd0 = true
    · rw [if_pos hex]
      rcases List.mem_cons.mp hnd with h | h
      · subst h
        obtain ⟨new, hdb, -, -⟩ :=
          stepDates_shape Option.none u tp rest ⟨s.db, s.created, s.ops + 1⟩
        rw [hdb]
        exact existsMatch_mono _ _ _ _ _ hex
      · exact ih _ nd h
    · rw [if_neg hex, if_neg (by simp)]
      rcases List.mem_cons.mp hnd with h | h
      · subst h
        obtain ⟨new, hdb, -, -⟩ := stepDates_shape Option.none u tp rest
          ⟨s.db ++ [mkInstance tp nd], s.created + 1, s.ops + 1 + 1⟩
        rw [hdb]
        exact existsMatch_mono _ _ _ _ _ (existsMatch_self s.db u tp nd hu)
      · exact ih _ nd h

/-- After a failure-free run, every candidate date of every processed
template has a matching transaction in the resulting table. -/
theorem stepTemplates_saturate (u : String) (tgt : CalDate) :
    ∀ (ts : List Txn) (s : RunState), (∀ tp ∈ ts, tp.userId = u) →
      ∀ tp ∈ ts, ∀ nd ∈ calculateNextRecurrenceDates tp tgt,
        existsMatch (resState (stepTemplates Option.none u tgt ts s)).db
          u tp nd = true := by
  intro ts
  induction ts with
  | nil => intro s _ tp h; simp at h
  | cons tp0 rest ih =>
    intro s hus tp htp nd hnd
    cases hres : stepDates Option.none u tp0
        (calculateNextRecurrenceDates tp0 tgt) s with
    | error e =>
      have hok := stepDates_noFail u tp0 (calculateNextRecurrenceDates tp0 tgt) s
      rw [hres] at hok
      exact absurd hok (by simp)
    | ok s1 =>
      simp only [stepTemplates, hres]
      rcases List.mem_cons.mp htp with h | h
      · subst h
        have hsat := stepDates_saturate u tp (hus tp (List.mem_cons_self _ _))
          (calculateNextRecurrenceDates tp tgt) s nd hnd
        rw [hres, resState_ok] at hsat
        obtain ⟨new2, hdb2, -, -⟩ := stepTemplates_shape Option.none u tgt rest s1
        rw [hdb2]
        exact existsMatch_mono _ _ _ _ _ hsat
      · exact ih s1 (fun t ht => hus t (List.mem_cons_of_mem _ ht)) tp h nd hnd

/-- A date loop all of whose candidates already match is a no-op apart from
the operation counter. -/
theorem stepDates_noop (u : String) (tp : Txn) :
    ∀ (dates : List CalDate) (s : RunState),
      (∀ nd ∈ dates, existsMatch s.db u tp nd = true) →
      stepDates Option.none u tp dates s =
        .ok ⟨s.db, s.created, s.ops + dates.length⟩ := by
  intro dates
  induction dates with
  | nil => intro s _; rfl
  | cons nd rest ih =>
    intro s hall
    simp only [stepDates]
    rw [if_neg (by simp), if_pos (hall nd (List.mem_cons_self _ _))]
    rw [ih ⟨s.db, s.created, s.ops + 1⟩
      (fun nd2 h2 => hall nd2 (List.mem_cons_of_mem _ h2))]
    have hlen : s.ops + 1 + rest.length = s.ops + (nd :: rest).length := by
      simp only [List.length_cons]
      omega
    rw [hlen]

/-- A run all of whose candidates already match creates nothing and leaves
the table unchanged. -/
theorem stepTemplates_noop (u : String) (tgt : CalDate) :
    ∀ (ts : List Txn) (s : RunState),
      (∀ tp ∈ ts, ∀ nd ∈ calculateNextRecurrenceDates tp tgt,
        existsMatch s.db u tp nd = true) →
      ∃ ops2, stepTemplates Option.none u tgt ts s =
        .ok ⟨s.db, s.created, ops2⟩ := by
  intro ts
  induction ts with
  | nil => intro s _; exact ⟨s.ops, rfl⟩
  | cons tp rest ih =>
    intro s hall
    have hstep := stepDates_noop u tp (calculateNextRecurrenceDates tp tgt) s
      (fun nd h => hall tp (List.mem_cons_self _ _) nd h)
    simp only [stepTemplates, hstep]
    obtain ⟨ops2, h2⟩ := ih
      ⟨s.db, s.created, s.ops + (calculateNextRecurrenceDates tp tgt).length⟩
      (fun tp2 h2 nd hn => hall tp2 (List.mem_cons_of_mem _ h2) nd hn)
    exact ⟨ops2, h2⟩

theorem getRecurring_append_created (u : String) (db C : List Txn)
    (hC : ∀ x ∈ C, x.isRecurring = false) :
    getRecurringTransactions u (db ++ C) = getRecurringTransactions u db := by
  unfold getRecurringTransactions
  rw [List.filter_append]
  have hnil : C.filter (fun r => decide (r.userId = u ∧ r.isRecurring = true)) = [] := by
    rw [List.filter_eq_nil_iff]
    intro a ha
    simp [hC a ha]
  rw [hnil, List.append_nil]

theorem mem_getRecurring (u : String) (db : List Txn) (t : Txn)
    (h : t ∈ getRecurringTransactions u db) :
    t ∈ db ∧ t.userId = u ∧ t.isRecurring = true := by
  unfold getRecurringTransactions at h
  rw [List.mem_filter] at h
  exact ⟨h.1, of_decide_eq_true h.2⟩

/-- The date loop preserves the invariant "the rows beyond `db0` have pairwise
distinct match keys": an insert happens only after its duplicate check failed,
and a failed check rules out any existing row with the same key. -/
theorem stepDates_uniq (failAt : Option Nat) (u : String) (tp : Txn)
    (hu : tp.userId = u) :
    ∀ (dates : List CalDate) (s : RunState) (db0 C : List Txn),
      s.db = db0 ++ C →
      C.Pairwise (fun a b => txnKey a ≠ txnKey b) →
      ∃ C2, (resState (stepDates failAt u tp dates s)).db = db0 ++ C2 ∧
        C2.Pairwise (fun a b => txnKey a ≠ txnKey b) := by
  intro dates
  induction dates with
  | nil => intro s db0 C hdb hpw; exact ⟨C, hdb, hpw⟩
  | cons nd rest ih =>
    intro s db0 C hdb hpw
    simp only [stepDates]
    by_cases hf1 : failAt = some s.ops
    · rw [if_pos hf1]
      exact ⟨C, hdb, hpw⟩
    · rw [if_neg hf1]
      by_cases hex : existsMatch s.db u tp nd = true
      · rw [if_pos hex]
        exact ih ⟨s.db, s.created, s.ops + 1⟩ db0 C hdb hpw
      · rw [if_neg hex]
        by_cases hf2 : failAt = some (s.ops + 1)
        · rw [if_pos hf2]
          exact ⟨C, hdb, hpw⟩
        · rw [if_neg hf2]
          apply ih ⟨s.db ++ [mkInstance tp nd], s.created + 1, s.ops + 1 + 1⟩
            db0 (C ++ [mkInstance tp nd])
          · show s.db ++ [mkInstance tp nd] = db0 ++ (C ++ [mkInstance tp nd])
            rw [hdb, List.append_assoc]
          · rw [List.pairwise_append]
            refine ⟨hpw, List.pairwise_singleton _ _, ?_⟩
            intro a ha b hb
            rw [List.mem_singleton] at hb
            subst hb
            intro hkey
            simp only [txnKey, Prod.mk.injEq] at hkey
            obtain ⟨hk1, hk2, hk3, hk4⟩ := hkey
            obtain ⟨m1, m2, m3, m4⟩ := mkInstance_matches tp nd
            apply hex
            refine existsMatch_of_mem s.db u tp nd a ?_ ?_ ?_ ?_ ?_
            · rw [hdb]
              exact List.mem_append_right _ ha
            · rw [hk1, m1, hu]
            · rw [hk2, m2]
            · rw [hk4, m3]
            · intro hct
              rw [hk3]
              simp only [mkInstance]
              exact orNullStr_of_truthy _ hct

/-- The template loop preserves the distinct-match-key invariant. -/
theorem stepTemplates_uniq (failAt : Option Nat) (u : String) (tgt : CalDate) :
    ∀ (ts : List Txn) (s : RunState) (db0 C : List Txn),
      (∀ tp ∈ ts, tp.userId = u) →
      s.db = db0 ++ C →
      C.Pairwise (fun a b => txnKey a ≠ txnKey b) →
      ∃ C2, (resState (stepTemplates failAt u tgt ts s)).db = db0 ++ C2 ∧
        C2.Pairwise (fun a b => txnKey a ≠ txnKey b) := by
  intro ts
  induction ts with
  | nil => intro s db0 C _ hdb hpw; exact ⟨C, hdb, hpw⟩
  | cons tp rest ih =>
    intro s db0 C hus hdb hpw
    obtain ⟨C1, hC1, hpw1⟩ := stepDates_uniq failAt u tp
      (hus tp (List.mem_cons_self _ _))
      (calculateNextRecurrenceDates tp tgt) s db0 C hdb hpw
    cases hres : stepDates failAt u tp (calculateNextRecurrenceDates tp tgt) s with
    | error e =>
      simp only [stepTemplates, hres]
      rw [hres, resState_error] at hC1
      exact ⟨C1, hC1, hpw1⟩
    | ok s1 =>
      simp only [stepTemplates, hres]
      rw [hres, resState_ok] at hC1
      exact ih s1 db0 C1 (fun t ht => hus t (List.mem_cons_of_mem _ ht)) hC1 hpw1

/-! ## Claim theorems -/

/-- C9: a run of `processRecurringTransactions` only inserts new transaction
rows: the prior table (templates and previously materialized instances
included, all fields unchanged, in order) is a prefix of the resulting table,
both when the run completes and when a persistence failure stops it partway
(any failure schedule `failAt`). -/
theorem c9_run_only_appends (u : String) (tgt : CalDate) (db : List Txn)
    (failAt : Option Nat) :
    (∃ extra, (resState (processAux failAt u tgt db)).db = db ++ extra) ∧
    (∃ extra, (processRecurringTransactions u tgt db).1 = db ++ extra) := by
  constructor
  · obtain ⟨new, hdb, -, -⟩ := stepTemplates_shape failAt u tgt
      (getRecurringTransactions u db) ⟨db, 0, 0⟩
    exact ⟨new, hdb⟩
  · obtain ⟨new, hdb, -, -⟩ := stepTemplates_shape Option.none u tgt
      (getRecurringTransactions u db) ⟨db, 0, 0⟩
    exact ⟨new, hdb⟩

/-- C8: with no recurring templates the materializer returns 0 and the
endpoint reports success with count 0; when a persistence operation throws,
the endpoint reports a generic server error (no partial count), and the rows
created before the failure — all materialized instances of the user's
templates — remain in the table (no rollback). -/
theorem c8_empty_and_failure (u : String) (tgt : CalDate) (db : List Txn) :
    (getRecurringTransactions u db = [] →
      processRecurringTransactions u tgt db = (db, 0) ∧
      processRecurrenceEndpoint Option.none u tgt db =
        RecurrenceResponse.ok 0) ∧
    (∀ (k : Nat) (s : RunState),
      processAux (some k) u tgt db = .error s →
      processRecurrenceEndpoint (some k) u tgt db =
        RecurrenceResponse.serverError ∧
      ∃ extra, s.db = db ++ extra ∧
        ∀ x ∈ extra, ∃ tp ∈ getRecurringTransactions u db,
          ∃ nd ∈ calculateNextRecurrenceDates tp tgt, x = mkInstance tp nd) := by
  constructor
  · intro hempty
    constructor
    · simp only [processRecurringTransactions, processAux, hempty]
      rfl
    · simp only [processRecurrenceEndpoint, processAux, hempty]
      rfl
  · intro k s herr
    constructor
    · simp only [processRecurrenceEndpoint, herr]
    · obtain ⟨new, hdb, -, hmem⟩ := stepTemplates_shape (some k) u tgt
        (getRecurringTransactions u db) ⟨db, 0, 0⟩
      rw [show processAux (some k) u tgt db = stepTemplates (some k) u tgt
        (getRecurringTransactions u db) ⟨db, 0, 0⟩ from rfl] at herr
      rw [herr, resState_error] at hdb
      exact ⟨new, hdb, hmem⟩

/-- C8 witness. -/
theorem c8_empty_and_failure_witness :
    (getRecurringTransactions "u" [] = [] →
      processRecurringTransactions "u" ⟨2024, 1, 1⟩ [] = ([], 0) ∧
      processRecurrenceEndpoint Option.none "u" ⟨2024, 1, 1⟩ [] =
        RecurrenceResponse.ok 0) ∧
    (∀ (k : Nat) (s : RunState),
      processAux (some k) "u" ⟨2024, 1, 1⟩ [] = .error s →
      processRecurrenceEndpoint (some k) "u" ⟨2024, 1, 1⟩ [] =
        RecurrenceResponse.serverError ∧
      ∃ extra, s.db = [] ++ extra ∧
        ∀ x ∈ extra, ∃ tp ∈ getRecurringTransactions "u" [],
          ∃ nd ∈ calculateNextRecurrenceDates tp ⟨2024, 1, 1⟩,
            x = mkInstance tp nd) :=
  c8_empty_and_failure "u" ⟨2024, 1, 1⟩ []

/-- C7: a template with a recognized recurrence type but a missing/invalid
anchor date yields zero occurrences, and processing it is a complete no-op
within a run — the other templates of the batch are processed exactly as if
it were absent (under any failure schedule). -/
theorem c7_invalid_anchor (t : Txn) (tgt : CalDate)
    (hdate : t.date = Option.none)
    (hty : t.recurrenceType ≠ RecurrenceType.none) :
    calculateNextRecurrenceDates t tgt = [] ∧
    ∀ (failAt : Option Nat) (u : String) (ts1 ts2 : List Txn) (s : RunState),
      stepTemplates failAt u tgt (ts1 ++ t :: ts2) s =
        stepTemplates failAt u tgt (ts1 ++ ts2) s := by
  have hcalc : calculateNextRecurrenceDates t tgt = [] := by
    simp only [calculateNextRecurrenceDates, hdate]
  refine ⟨hcalc, ?_⟩
  intro failAt u ts1 ts2
  induction ts1 with
  | nil =>
    intro s
    simp only [List.nil_append, stepTemplates, hcalc, stepDates]
  | cons t1 rest ih =>
    intro s
    simp only [List.cons_append, stepTemplates]
    cases stepDates failAt u t1 (calculateNextRecurrenceDates t1 tgt) s with
    | error e => rfl
    | ok s1 => exact ih s1

/-- C7 witness. -/
theorem c7_invalid_anchor_witness :
    (let bad : Txn := ⟨"u", Option.none, "x", 1, Option.none, TxStatus.unpaid,
        Option.none, RecurrenceType.monthly, some 5, true⟩
     calculateNextRecurrenceDates bad ⟨2024, 3, 31⟩ = [] ∧
     ∀ (failAt : Option Nat) (u : String) (ts1 ts2 : List Txn) (s : RunState),
       stepTemplates failAt u ⟨2024, 3, 31⟩ (ts1 ++ bad :: ts2) s =
         stepTemplates failAt u ⟨2024, 3, 31⟩ (ts1 ++ ts2) s) :=
  c7_invalid_anchor _ ⟨2024, 3, 31⟩ rfl (by decide)

theorem if_none_eq_some {α : Type} (o : Nat) (a b : α) :
    (if (Option.none : Option Nat) = some o then a else b) = b :=
  if_neg (by simp)

/-- The database and created-count evolution of a failure-free date loop do
not depend on the operation counter. -/
theorem stepDates_ops_indep (u : String) (tp : Txn) :
    ∀ (dates : List CalDate) (d : List Txn) (c o1 o2 : Nat),
      (resState (stepDates Option.none u tp dates ⟨d, c, o1⟩)).db =
        (resState (stepDates Option.none u tp dates ⟨d, c, o2⟩)).db ∧
      (resState (stepDates Option.none u tp dates ⟨d, c, o1⟩)).created =
        (resState (stepDates Option.none u tp dates ⟨d, c, o2⟩)).created := by
  intro dates
  induction dates with
  | nil => intro d c o1 o2; exact ⟨rfl, rfl⟩
  | cons nd rest ih =>
    intro d c o1 o2
    simp only [stepDates]
    rw [if_none_eq_some, if_none_eq_some]
    by_cases hex : existsMatch d u tp nd = true
    · rw [if_pos hex, if_pos hex]
      exact ih d c (o1 + 1) (o2 + 1)
    · rw [if_neg hex, if_neg hex, if_none_eq_some, if_none_eq_some]
      exact ih (d ++ [mkInstance tp nd]) (c + 1) (o1 + 1 + 1) (o2 + 1 + 1)

theorem orNullStr_eq_of_ne (o : Option String) (h : o ≠ some "") :
    orNullStr o = o := by
  cases o with
  | none => rfl
  | some c =>
    have hc : ¬ c = "" := fun hce => h (by rw [hce])
    simp [orNullStr, hc]

/-- C6: a candidate occurrence creates a row only when no transaction already
matches `(userId, title, calendar day, categoryId-if-present)`; a matching
candidate is skipped — the table and the created count evolve exactly as if
the candidate were absent — and a non-matching candidate inserts the
materialized instance and counts it. -/
theorem c6_duplicate_check (u : String) (tp : Txn) (nd : CalDate)
    (rest : List CalDate) (s : RunState)
    (hcat : tp.categoryId ≠ some "") :
    (existsMatch s.db u tp nd = true ↔
      ∃ r ∈ s.db, r.userId = u ∧ r.title = tp.title ∧ r.date = some nd ∧
        (∀ c : String, tp.categoryId = some c → r.categoryId = some c)) ∧
    (existsMatch s.db u tp nd = true →
      (resState (stepDates Option.none u tp (nd :: rest) s)).db =
        (resState (stepDates Option.none u tp rest s)).db ∧
      (resState (stepDates Option.none u tp (nd :: rest) s)).created =
        (resState (stepDates Option.none u tp rest s)).created) ∧
    (existsMatch s.db u tp nd = false →
      stepDates Option.none u tp (nd :: rest) s =
        stepDates Option.none u tp rest
          ⟨s.db ++ [mkInstance tp nd], s.created + 1, s.ops + 1 + 1⟩) := by
  refine ⟨?_, ?_, ?_⟩
  · rw [existsMatch_iff]
    constructor
    · rintro ⟨r, hr, h1, h2, h3, h4⟩
      refine ⟨r, hr, h1, h2, h3, ?_⟩
      intro c hc
      have hcne : ¬ c = "" := fun hce => hcat (by rw [hc, hce])
      have hst : strTruthy tp.categoryId = true := by
        rw [hc]
        simp [strTruthy, hcne]
      rw [h4 hst, hc]
    · rintro ⟨r, hr, h1, h2, h3, h4⟩
      refine ⟨r, hr, h1, h2, h3, ?_⟩
      intro hst
      cases hc : tp.categoryId with
      | none => rw [hc] at hst; simp [strTruthy] at hst
      | some c => exact h4 c hc
  · intro hex
    simp only [stepDates]
    rw [if_neg (by simp), if_pos hex]
    obtain ⟨h1, h2⟩ := stepDates_ops_indep u tp rest s.db s.created
      (s.ops + 1) s.ops
    exact ⟨h1, h2⟩
  · intro hex
    simp only [stepDates]
    rw [if_neg (by simp), if_neg (by simp [hex]), if_neg (by simp)]

/-- C6 witness. -/
theorem c6_duplicate_check_witness :
    existsMatch [] "u" scenarioMonthly ⟨2024, 1, 1⟩ = true ↔
      ∃ r ∈ ([] : List Txn), r.userId = "u" ∧
        r.title = scenarioMonthly.title ∧ r.date = some ⟨2024, 1, 1⟩ ∧
        (∀ c : String, scenarioMonthly.categoryId = some c →
          r.categoryId = some c) :=
  (c6_duplicate_check "u" scenarioMonthly ⟨2024, 1, 1⟩ [] ⟨[], 0, 0⟩
    (by decide)).1

/-- C5 counterexample: a materialized row does not always copy `notes`
verbatim — for a template whose `notes` is the empty string, the created
instance has `notes = null` (JS `template.notes || null`), so the claim as
stated fails at this input. -/
theorem c5_counterexample :
    emptyNotesTemplate.notes = some "" ∧
    (processRecurringTransactions "u" ⟨2024, 2, 15⟩ [emptyNotesTemplate]).1 =
      [emptyNotesTemplate, mkInstance emptyNotesTemplate ⟨2024, 2, 15⟩] ∧
    (mkInstance emptyNotesTemplate ⟨2024, 2, 15⟩).notes = Option.none ∧
    (mkInstance emptyNotesTemplate ⟨2024, 2, 15⟩).notes ≠
      emptyNotesTemplate.notes := by
  refine ⟨rfl, ?_, rfl, by decide⟩
  decide

/-- C5 (amended): every row created by the materializer is the `mkInstance`
of one of the user's templates at one of its occurrence dates: it copies
`userId`, `title` and `amount` verbatim, copies `categoryId` and `notes`
except that an empty string is stored as null, sets `date` to the occurrence
date, and — regardless of the template's state — has `status = unpaid`,
`recurrenceType = none`, `recurrenceDay = null`, `isRecurring = false`;
the returned count equals the number of created rows. -/
theorem c5_instance_fields (u : String) (tgt : CalDate) (db : List Txn) :
    ∃ C, (processRecurringTransactions u tgt db).1 = db ++ C ∧
      (processRecurringTransactions u tgt db).2 = C.length ∧
      ∀ x ∈ C, ∃ tp nd, tp ∈ getRecurringTransactions u db ∧
        nd ∈ calculateNextRecurrenceDates tp tgt ∧
        x.userId = tp.userId ∧
        x.categoryId = orNullStr tp.categoryId ∧
        (tp.categoryId ≠ some "" → x.categoryId = tp.categoryId) ∧
        x.title = tp.title ∧
        x.amount = tp.amount ∧
        x.notes = orNullStr tp.notes ∧
        (tp.notes ≠ some "" → x.notes = tp.notes) ∧
        x.date = some nd ∧
        x.status = TxStatus.unpaid ∧
        x.recurrenceType = RecurrenceType.none ∧
        x.recurrenceDay = Option.none ∧
        x.isRecurring = false := by
  obtain ⟨C, hdb, hcr, hmem⟩ := stepTemplates_shape Option.none u tgt
    (getRecurringTransactions u db) ⟨db, 0, 0⟩
  refine ⟨C, hdb, by simpa using hcr, ?_⟩
  intro x hx
  obtain ⟨tp, htp, nd, hnd, hxe⟩ := hmem x hx
  subst hxe
  exact ⟨tp, nd, htp, hnd, rfl, rfl,
    fun h => orNullStr_eq_of_ne _ h, rfl, rfl, rfl,
    fun h => orNullStr_eq_of_ne _ h, rfl, rfl, rfl, rfl, rfl⟩

/-- C5 witness. -/
theorem c5_instance_fields_witness :
    ∃ C, (processRecurringTransactions "u" ⟨2024, 2, 15⟩
        [emptyNotesTemplate]).1 = [emptyNotesTemplate] ++ C ∧
      (processRecurringTransactions "u" ⟨2024, 2, 15⟩
        [emptyNotesTemplate]).2 = C.length ∧
      ∀ x ∈ C, ∃ tp nd,
        tp ∈ getRecurringTransactions "u" [emptyNotesTemplate] ∧
        nd ∈ calculateNextRecurrenceDates tp ⟨2024, 2, 15⟩ ∧
        x.userId = tp.userId ∧
        x.categoryId = orNullStr tp.categoryId ∧
        (tp.categoryId ≠ some "" → x.categoryId = tp.categoryId) ∧
        x.title = tp.title ∧
        x.amount = tp.amount ∧
        x.notes = orNullStr tp.notes ∧
        (tp.notes ≠ some "" → x.notes = tp.notes) ∧
        x.date = some nd ∧
        x.status = TxStatus.unpaid ∧
        x.recurrenceType = RecurrenceType.none ∧
        x.recurrenceDay = Option.none ∧
        x.isRecurring = false :=
  c5_instance_fields "u" ⟨2024, 2, 15⟩ [emptyNotesTemplate]

theorem weekly_off_nonneg (anchor : CalDate) (dow : Int) (h0 : 0 ≤ dow) :
    0 ≤ (dow - anchor.getDay + 7).tmod 7 := by
  obtain ⟨hg0, hg7⟩ := getDay_bounds anchor
  rw [Int.tmod_eq_emod (by omega) (by omega)]
  omega

/-- Unpacking membership in the canonical monthly filterMap body. -/
theorem monthly_some_inv (ay am ad : Nat) (tgt : CalDate) (dom : Int)
    (a : Nat) (x : CalDate)
    (h : (if toRD ⟨ay, am, ad⟩ ≤ toRD (monthlyOcc ay dom (am - 1 + a)) ∧
            toRD (monthlyOcc ay dom (am - 1 + a)) ≤ toRD tgt
          then some (monthlyOcc ay dom (am - 1 + a)) else Option.none) =
         some x) :
    x = monthlyOcc ay dom (am - 1 + a) ∧
    toRD ⟨ay, am, ad⟩ ≤ toRD x ∧ toRD x ≤ toRD tgt := by
  by_cases hc : toRD ⟨ay, am, ad⟩ ≤ toRD (monthlyOcc ay dom (am - 1 + a)) ∧
      toRD (monthlyOcc ay dom (am - 1 + a)) ≤ toRD tgt
  · rw [if_pos hc] at h
    have hx := Option.some.inj h
    subst hx
    exact ⟨rfl, hc.1, hc.2⟩
  · rw [if_neg hc] at h
    exact absurd h (by simp)

/-- C4: for every template (with a sane `recurrenceDay`) and target date the
occurrence calculator returns a strictly ascending list of pairwise distinct
calendar dates, each between the anchor date and the target date; the list is
empty when the target precedes the anchor, and empty for `recurrenceType`
`none`. -/
theorem c4_output_shape (t : Txn) (anchor tgt : CalDate)
    (hd : t.date = some anchor) (hva : anchor.Valid)
    (hday : t.recurrenceDay = Option.none ∨
            ∃ r : Int, t.recurrenceDay = some r ∧ 0 ≤ r) :
    List.Pairwise (fun a b => toRD a < toRD b)
      (calculateNextRecurrenceDates t tgt) ∧
    List.Pairwise (fun a b => a ≠ b) (calculateNextRecurrenceDates t tgt) ∧
    (∀ e ∈ calculateNextRecurrenceDates t tgt,
      toRD anchor ≤ toRD e ∧ toRD e ≤ toRD tgt) ∧
    (toRD tgt < toRD anchor → calculateNextRecurrenceDates t tgt = []) ∧
    (t.recurrenceType = RecurrenceType.none →
      calculateNextRecurrenceDates t tgt = []) := by
  have main : List.Pairwise (fun a b => toRD a < toRD b)
      (calculateNextRecurrenceDates t tgt) ∧
      (∀ e ∈ calculateNextRecurrenceDates t tgt,
        toRD anchor ≤ toRD e ∧ toRD e ≤ toRD tgt) := by
    obtain ⟨ay, am, ad⟩ := anchor
    have hva2 := hva
    rw [valid_mk_iff] at hva2
    obtain ⟨ham1, ham2, had1, had2⟩ := hva2
    cases hty : t.recurrenceType with
    | none =>
      simp only [calculateNextRecurrenceDates, hd, hty]
      exact ⟨List.Pairwise.nil, by simp⟩
    | monthly | monthly_variable =>
      have hex : ∃ dom : Int, 1 ≤ dom ∧
          calculateNextRecurrenceDates t tgt =
            (List.range (monthsCount ay am tgt)).filterMap
              (fun k =>
                if toRD ⟨ay, am, ad⟩ ≤ toRD (monthlyOcc ay dom (am - 1 + k)) ∧
                    toRD (monthlyOcc ay dom (am - 1 + k)) ≤ toRD tgt
                then some (monthlyOcc ay dom (am - 1 + k))
                else Option.none) := by
        have htyOr : t.recurrenceType = RecurrenceType.monthly ∨
            t.recurrenceType = RecurrenceType.monthly_variable := by
          first
          | exact Or.inl hty
          | exact Or.inr hty
        rcases hday with hrd | ⟨r, hrd, hr0⟩
        · exact ⟨(ad : Int), by omega,
            calc_monthly t ay am ad tgt _ hd htyOr hva (Or.inl ⟨hrd, rfl⟩)⟩
        · by_cases hr : r = 0
          · subst hr
            exact ⟨(ad : Int), by omega,
              calc_monthly t ay am ad tgt _ hd htyOr hva
                (Or.inr (Or.inl ⟨hrd, rfl⟩))⟩
          · exact ⟨r, by omega,
              calc_monthly t ay am ad tgt _ hd htyOr hva
                (Or.inr (Or.inr ⟨r, hrd, by omega, rfl⟩))⟩
      obtain ⟨dom, hdom1, hcalc⟩ := hex
      rw [hcalc]
      constructor
      · refine List.Pairwise.filterMap _ ?_ (List.pairwise_lt_range _)
        intro a b hab x hx y hy
        rw [Option.mem_def] at hx hy
        obtain ⟨hx1, -, -⟩ := monthly_some_inv ay am ad tgt dom a x hx
        obtain ⟨hy1, -, -⟩ := monthly_some_inv ay am ad tgt dom b y hy
        rw [hx1, hy1]
        exact (monthlyOcc_strictMono ay dom hdom1) (by omega)
      · intro e he
        rw [List.mem_filterMap] at he
        obtain ⟨a, -, hsome⟩ := he
        obtain ⟨-, h1, h2⟩ := monthly_some_inv ay am ad tgt dom a e hsome
        exact ⟨h1, h2⟩
    | weekly =>
      have hex : ∃ dow : Int, 0 ≤ dow ∧
          calculateNextRecurrenceDates t tgt =
            collectEvery 7 ⟨ay, am, ad⟩ tgt
              (toRD tgt + 1 - toRD (addDays ⟨ay, am, ad⟩
                ((dow - CalDate.getDay ⟨ay, am, ad⟩ + 7).tmod 7)))
              (addDays ⟨ay, am, ad⟩
                ((dow - CalDate.getDay ⟨ay, am, ad⟩ + 7).tmod 7)) := by
        rcases hday with hrd | ⟨r, hrd, hr0⟩
        · exact ⟨CalDate.getDay ⟨ay, am, ad⟩, (getDay_bounds _).1,
            calc_weekly t ⟨ay, am, ad⟩ tgt _ hd hty (Or.inl ⟨hrd, rfl⟩)⟩
        · exact ⟨r, hr0, calc_weekly t ⟨ay, am, ad⟩ tgt r hd hty (Or.inr hrd)⟩
      obtain ⟨dow, hdow0, hcalc⟩ := hex
      rw [hcalc]
      have hoff0 := weekly_off_nonneg ⟨ay, am, ad⟩ dow hdow0
      have hfirst := addDays_int_valid_toRD ⟨ay, am, ad⟩ hva _ hoff0
      refine ⟨collectEvery_pairwise 7 _ tgt (by omega) _ _ hfirst.1, ?_⟩
      intro e he
      obtain ⟨-, h1, h2, -⟩ := collectEvery_mem 7 _ tgt _ _ hfirst.1 e he
      exact ⟨h1, h2⟩
    | biweekly =>
      have hex : ∃ dow : Int, 0 ≤ dow ∧
          calculateNextRecurrenceDates t tgt =
            collectEvery 14 ⟨ay, am, ad⟩ tgt
              (toRD tgt + 1 - toRD (addDays ⟨ay, am, ad⟩
                ((dow - CalDate.getDay ⟨ay, am, ad⟩ + 7).tmod 7)))
              (addDays ⟨ay, am, ad⟩
                ((dow - CalDate.getDay ⟨ay, am, ad⟩ + 7).tmod 7)) := by
        rcases hday with hrd | ⟨r, hrd, hr0⟩
        · exact ⟨CalDate.getDay ⟨ay, am, ad⟩, (getDay_bounds _).1,
            calc_biweekly t ⟨ay, am, ad⟩ tgt _ hd hty (Or.inl ⟨hrd, rfl⟩)⟩
        · exact ⟨r, hr0, calc_biweekly t ⟨ay, am, ad⟩ tgt r hd hty (Or.inr hrd)⟩
      obtain ⟨dow, hdow0, hcalc⟩ := hex
      rw [hcalc]
      have hoff0 := weekly_off_nonneg ⟨ay, am, ad⟩ dow hdow0
      have hfirst := addDays_int_valid_toRD ⟨ay, am, ad⟩ hva _ hoff0
      refine ⟨collectEvery_pairwise 14 _ tgt (by omega) _ _ hfirst.1, ?_⟩
      intro e he
      obtain ⟨-, h1, h2, -⟩ := collectEvery_mem 14 _ tgt _ _ hfirst.1 e he
      exact ⟨h1, h2⟩
  obtain ⟨hpw, hbounds⟩ := main
  refine ⟨hpw, ?_, hbounds, ?_, ?_⟩
  · exact hpw.imp (fun hlt heq => by rw [heq] at hlt; omega)
  · intro hlt
    rw [List.eq_nil_iff_forall_not_mem]
    intro e he
    have := hbounds e he
    omega
  · intro htyn
    simp only [calculateNextRecurrenceDates, hd, htyn]

/-- C4 witness. -/
theorem c4_output_shape_witness :
    List.Pairwise (fun a b => toRD a < toRD b)
      (calculateNextRecurrenceDates scenarioMonthly ⟨2024, 3, 31⟩) ∧
    List.Pairwise (fun a b => a ≠ b)
      (calculateNextRecurrenceDates scenarioMonthly ⟨2024, 3, 31⟩) ∧
    (∀ e ∈ calculateNextRecurrenceDates scenarioMonthly ⟨2024, 3, 31⟩,
      toRD ⟨2024, 1, 31⟩ ≤ toRD e ∧ toRD e ≤ toRD ⟨2024, 3, 31⟩) ∧
    (toRD ⟨2024, 3, 31⟩ < toRD ⟨2024, 1, 31⟩ →
      calculateNextRecurrenceDates scenarioMonthly ⟨2024, 3, 31⟩ = []) ∧
    (scenarioMonthly.recurrenceType = RecurrenceType.none →
      calculateNextRecurrenceDates scenarioMonthly ⟨2024, 3, 31⟩ = []) :=
  c4_output_shape scenarioMonthly ⟨2024, 1, 31⟩ ⟨2024, 3, 31⟩ rfl (by decide)
    (Or.inr ⟨31, rfl, by omega⟩)

/-- Shared properties of the weekly/biweekly collection loop started at the
first target weekday on/after the anchor, for a step that is a positive
multiple of 7 days. -/
theorem collect_props (anchor tgt : CalDate) (hva : anchor.Valid) (dow : Int)
    (h0 : 0 ≤ dow) (h7 : dow < 7) (m sN : Nat) (hsN : sN = 7 * m)
    (hm1 : 1 ≤ m) :
    (∀ e ∈ collectEvery sN anchor tgt
        (toRD tgt + 1 -
          toRD (addDays anchor ((dow - anchor.getDay + 7).tmod 7)))
        (addDays anchor ((dow - anchor.getDay + 7).tmod 7)),
      e.getDay = dow ∧ toRD anchor ≤ toRD e ∧ toRD e ≤ toRD tgt) ∧
    List.Chain' (fun a b => toRD b = toRD a + sN)
      (collectEvery sN anchor tgt
        (toRD tgt + 1 -
          toRD (addDays anchor ((dow - anchor.getDay + 7).tmod 7)))
        (addDays anchor ((dow - anchor.getDay + 7).tmod 7))) ∧
    (∀ e, (collectEvery sN anchor tgt
        (toRD tgt + 1 -
          toRD (addDays anchor ((dow - anchor.getDay + 7).tmod 7)))
        (addDays anchor ((dow - anchor.getDay + 7).tmod 7))).head? = some e →
      toRD e < toRD anchor + 7) ∧
    (∀ e0, (collectEvery sN anchor tgt
        (toRD tgt + 1 -
          toRD (addDays anchor ((dow - anchor.getDay + 7).tmod 7)))
        (addDays anchor ((dow - anchor.getDay + 7).tmod 7))).head? = some e0 →
      ∀ k : Nat, toRD e0 + sN * k ≤ toRD tgt →
        ∃ e ∈ collectEvery sN anchor tgt
          (toRD tgt + 1 -
            toRD (addDays anchor ((dow - anchor.getDay + 7).tmod 7)))
          (addDays anchor ((dow - anchor.getDay + 7).tmod 7)),
          toRD e = toRD e0 + sN * k) := by
  obtain ⟨hoff0, hoff7, hfv, hft, hfd⟩ := weekly_start anchor hva dow h0 h7
  set first := addDays anchor ((dow - anchor.getDay + 7).tmod 7) with hfirst
  have htpl : toRD anchor ≤ toRD first := by omega
  refine ⟨?_, ?_, ?_, ?_⟩
  · intro e he
    obtain ⟨hev, h1, h2, k, hk⟩ :=
      collectEvery_mem sN anchor tgt _ first hfv e he
    refine ⟨?_, h1, h2⟩
    rw [getDay_def] at hfd ⊢
    rw [hsN, Nat.mul_assoc] at hk
    omega
  · exact collectEvery_chain sN anchor tgt _ first hfv htpl
  · intro e he
    have he2 := collectEvery_head sN anchor tgt _ first htpl e he
    subst he2
    omega
  · intro e0 he0 k hk
    have he2 := collectEvery_head sN anchor tgt _ first htpl e0 he0
    subst he2
    exact collectEvery_complete sN anchor tgt (by omega) _ first hfv htpl
      (by omega) k hk

/-- C3: for weekly templates every produced occurrence falls on the target
weekday (`recurrenceDay`, or the anchor's weekday when unset), the first
occurrence is the first such weekday on or after the anchor (it is within 7
days of the anchor), consecutive occurrences are exactly 7 days apart and
none is produced beyond them, and every occurrence lies in
`[anchor, target]`; biweekly templates satisfy the same with a 14-day step. -/
theorem c3_weekly_biweekly (t : Txn) (anchor tgt : CalDate) (dow : Int)
    (hd : t.date = some anchor) (hva : anchor.Valid)
    (hdw : (t.recurrenceDay = Option.none ∧ dow = anchor.getDay) ∨
           (t.recurrenceDay = some dow ∧ 0 ≤ dow ∧ dow < 7)) :
    (t.recurrenceType = RecurrenceType.weekly →
      (∀ e ∈ calculateNextRecurrenceDates t tgt,
        e.getDay = dow ∧ toRD anchor ≤ toRD e ∧ toRD e ≤ toRD tgt) ∧
      List.Chain' (fun a b => toRD b = toRD a + 7)
        (calculateNextRecurrenceDates t tgt) ∧
      (∀ e, (calculateNextRecurrenceDates t tgt).head? = some e →
        toRD e < toRD anchor + 7) ∧
      (∀ e0, (calculateNextRecurrenceDates t tgt).head? = some e0 →
        ∀ k : Nat, toRD e0 + 7 * k ≤ toRD tgt →
          ∃ e ∈ calculateNextRecurrenceDates t tgt,
            toRD e = toRD e0 + 7 * k)) ∧
    (t.recurrenceType = RecurrenceType.biweekly →
      (∀ e ∈ calculateNextRecurrenceDates t tgt,
        e.getDay = dow ∧ toRD anchor ≤ toRD e ∧ toRD e ≤ toRD tgt) ∧
      List.Chain' (fun a b => toRD b = toRD a + 14)
        (calculateNextRecurrenceDates t tgt) ∧
      (∀ e, (calculateNextRecurrenceDates t tgt).head? = some e →
        toRD e < toRD anchor + 7) ∧
      (∀ e0, (calculateNextRecurrenceDates t tgt).head? = some e0 →
        ∀ k : Nat, toRD e0 + 14 * k ≤ toRD tgt →
          ∃ e ∈ calculateNextRecurrenceDates t tgt,
            toRD e = toRD e0 + 14 * k)) := by
  have h07 : 0 ≤ dow ∧ dow < 7 := by
    rcases hdw with ⟨-, hq⟩ | ⟨-, h0, h7⟩
    · subst hq
      exact getDay_bounds anchor
    · exact ⟨h0, h7⟩
  have hdwArg : (t.recurrenceDay = Option.none ∧ dow = anchor.getDay) ∨
      t.recurrenceDay = some dow := by
    rcases hdw with ⟨h1, h2⟩ | ⟨h1, -, -⟩
    · exact Or.inl ⟨h1, h2⟩
    · exact Or.inr h1
  constructor
  · intro hty
    rw [calc_weekly t anchor tgt dow hd hty hdwArg]
    exact collect_props anchor tgt hva dow h07.1 h07.2 1 7 (by norm_num)
      (le_refl 1)
  · intro hty
    rw [calc_biweekly t anchor tgt dow hd hty hdwArg]
    exact collect_props anchor tgt hva dow h07.1 h07.2 2 14 (by norm_num)
      (by omega)

/-- C3 witness. -/
theorem c3_weekly_biweekly_witness :
    (scenarioWeekly.recurrenceType = RecurrenceType.weekly →
      (∀ e ∈ calculateNextRecurrenceDates scenarioWeekly ⟨2024, 6, 20⟩,
        e.getDay = 3 ∧ toRD ⟨2024, 6, 5⟩ ≤ toRD e ∧
          toRD e ≤ toRD ⟨2024, 6, 20⟩) ∧
      List.Chain' (fun a b => toRD b = toRD a + 7)
        (calculateNextRecurrenceDates scenarioWeekly ⟨2024, 6, 20⟩) ∧
      (∀ e, (calculateNextRecurrenceDates scenarioWeekly
          ⟨2024, 6, 20⟩).head? = some e → toRD e < toRD ⟨2024, 6, 5⟩ + 7) ∧
      (∀ e0, (calculateNextRecurrenceDates scenarioWeekly
          ⟨2024, 6, 20⟩).head? = some e0 →
        ∀ k : Nat, toRD e0 + 7 * k ≤ toRD ⟨2024, 6, 20⟩ →
          ∃ e ∈ calculateNextRecurrenceDates scenarioWeekly ⟨2024, 6, 20⟩,
            toRD e = toRD e0 + 7 * k)) ∧
    (scenarioWeekly.recurrenceType = RecurrenceType.biweekly →
      (∀ e ∈ calculateNextRecurrenceDates scenarioWeekly ⟨2024, 6, 20⟩,
        e.getDay = 3 ∧ toRD ⟨2024, 6, 5⟩ ≤ toRD e ∧
          toRD e ≤ toRD ⟨2024, 6, 20⟩) ∧
      List.Chain' (fun a b => toRD b = toRD a + 14)
        (calculateNextRecurrenceDates scenarioWeekly ⟨2024, 6, 20⟩) ∧
      (∀ e, (calculateNextRecurrenceDates scenarioWeekly
          ⟨2024, 6, 20⟩).head? = some e → toRD e < toRD ⟨2024, 6, 5⟩ + 7) ∧
      (∀ e0, (calculateNextRecurrenceDates scenarioWeekly
          ⟨2024, 6, 20⟩).head? = some e0 →
        ∀ k : Nat, toRD e0 + 14 * k ≤ toRD ⟨2024, 6, 20⟩ →
          ∃ e ∈ calculateNextRecurrenceDates scenarioWeekly ⟨2024, 6, 20⟩,
            toRD e = toRD e0 + 14 * k)) :=
  c3_weekly_biweekly scenarioWeekly ⟨2024, 6, 5⟩ ⟨2024, 6, 20⟩ 3 rfl
    (by decide) (Or.inr ⟨rfl, by omega, by omega⟩)

/-- C2: for monthly and monthly_variable templates the calculator returns,
for each calendar month from the anchor's month through the target's month,
the date of that month clamped to `min(nominalDay, lastDayOfThatMonth)`
(nominal day = `recurrenceDay`, or the anchor's day-of-month when unset),
keeping only dates within `[anchor, target]` — i.e. exactly the spec-side
`monthlySpecDates`; in particular the day-31 template anchored 2024-01-31
with target 2024-03-31 yields 2024-01-31, 2024-02-29, 2024-03-31. -/
theorem c2_monthly_clamp (t : Txn) (ay am ad : Nat) (tgt : CalDate)
    (nominal : Nat)
    (hd : t.date = some ⟨ay, am, ad⟩)
    (hty : t.recurrenceType = RecurrenceType.monthly ∨
           t.recurrenceType = RecurrenceType.monthly_variable)
    (hva : (CalDate.mk ay am ad).Valid) (hvt : tgt.Valid)
    (hnom : (t.recurrenceDay = Option.none ∧ nominal = ad) ∨
            (∃ r : Nat, t.recurrenceDay = some (r : Int) ∧ 1 ≤ r ∧ r ≤ 31 ∧
              nominal = r)) :
    calculateNextRecurrenceDates t tgt =
      monthlySpecDates nominal ⟨ay, am, ad⟩ tgt ∧
    calculateNextRecurrenceDates scenarioMonthly ⟨2024, 3, 31⟩ =
      [⟨2024, 1, 31⟩, ⟨2024, 2, 29⟩, ⟨2024, 3, 31⟩] := by
  refine ⟨?_, by decide⟩
  have hva2 := hva
  rw [valid_mk_iff] at hva2
  obtain ⟨ham1, ham2, had1, had2⟩ := hva2
  have hvt2 := hvt
  rw [valid_def] at hvt2
  obtain ⟨htm1, htm2, htd1, htd2⟩ := hvt2
  have hnom1 : 1 ≤ nominal := by
    rcases hnom with ⟨-, hq⟩ | ⟨r, -, hr1, -, hq⟩ <;> omega
  have hdom : (t.recurrenceDay = Option.none ∧ (nominal : Int) = (ad : Int)) ∨
      (t.recurrenceDay = some 0 ∧ (nominal : Int) = (ad : Int)) ∨
      (∃ r : Int, t.recurrenceDay = some r ∧ 1 ≤ r ∧ (nominal : Int) = r) := by
    rcases hnom with ⟨h1, hq⟩ | ⟨r, h1, hr1, -, hq⟩
    · subst hq
      exact Or.inl ⟨h1, rfl⟩
    · subst hq
      exact Or.inr (Or.inr ⟨(nominal : Int), h1, by omega, rfl⟩)
  rw [calc_monthly t ay am ad tgt (nominal : Int) hd hty hva hdom]
  unfold monthlySpecDates
  by_cases hle : (CalDate.mk ay am ad).year * 12 +
      ((CalDate.mk ay am ad).month - 1) ≤ tgt.year * 12 + (tgt.month - 1)
  · rw [if_pos hle]
    have hle2 : ay * 12 + (am - 1) ≤ tgt.year * 12 + (tgt.month - 1) := hle
    have hNeq : monthsCount ay am tgt =
        tgt.year * 12 + (tgt.month - 1) -
          ((CalDate.mk ay am ad).year * 12 +
            ((CalDate.mk ay am ad).month - 1)) + 1 := by
      show monthsCount ay am tgt =
        tgt.year * 12 + (tgt.month - 1) - (ay * 12 + (am - 1)) + 1
      unfold monthsCount
      split_ifs with hneg
      · omega
      · omega
    rw [hNeq]
    apply List.filterMap_congr
    intro k hk
    have hi1 : ((CalDate.mk ay am ad).year * 12 +
        ((CalDate.mk ay am ad).month - 1) + k) / 12 = ay + (am - 1 + k) / 12 := by
      show (ay * 12 + (am - 1) + k) / 12 = ay + (am - 1 + k) / 12
      omega
    have hi2 : ((CalDate.mk ay am ad).year * 12 +
        ((CalDate.mk ay am ad).month - 1) + k) % 12 = (am - 1 + k) % 12 := by
      show (ay * 12 + (am - 1) + k) % 12 = (am - 1 + k) % 12
      omega
    simp only [monthlyOcc, hi1, hi2]
    have hmin : ((min (nominal : Int)
        ((daysInMonth (ay + (am - 1 + k) / 12) ((am - 1 + k) % 12 + 1) : Nat) :
          Int))).toNat =
        min nominal (daysInMonth (ay + (am - 1 + k) / 12)
          ((am - 1 + k) % 12 + 1)) := by
      rcases le_total nominal
          (daysInMonth (ay + (am - 1 + k) / 12) ((am - 1 + k) % 12 + 1)) with
        h | h
      · rw [min_eq_left (by exact_mod_cast h), min_eq_left h]
        omega
      · rw [min_eq_right (by exact_mod_cast h), min_eq_right h]
        omega
    rw [hmin]
  · rw [if_neg hle]
    have hle2 : ¬ ay * 12 + (am - 1) ≤ tgt.year * 12 + (tgt.month - 1) := hle
    have hN0 : monthsCount ay am tgt = 0 := by
      unfold monthsCount
      split_ifs with hneg
      · rfl
      · omega
    rw [hN0]
    rfl

/-- C2 witness. -/
theorem c2_monthly_clamp_witness :
    calculateNextRecurrenceDates scenarioMonthly ⟨2024, 3, 31⟩ =
      monthlySpecDates 31 ⟨2024, 1, 31⟩ ⟨2024, 3, 31⟩ ∧
    calculateNextRecurrenceDates scenarioMonthly ⟨2024, 3, 31⟩ =
      [⟨2024, 1, 31⟩, ⟨2024, 2, 29⟩, ⟨2024, 3, 31⟩] :=
  c2_monthly_clamp scenarioMonthly 2024 1 31 ⟨2024, 3, 31⟩ 31 rfl
    (Or.inl rfl) (by decide) (by decide)
    (Or.inr ⟨31, rfl, by omega, by omega, rfl⟩)

/-- C10: for weekly and biweekly templates `recurrenceDay = 0` is honored as
Sunday (every produced occurrence falls on Sunday), whereas for monthly and
monthly_variable templates `recurrenceDay = 0` is treated as unset — the
result is identical to that of the same template with `recurrenceDay =
null`, which uses the anchor's day-of-month. -/
theorem c10_zero_recurrence_day (t : Txn) (anchor tgt : CalDate)
    (hd : t.date = some anchor) (hva : anchor.Valid)
    (hrd : t.recurrenceDay = some 0) :
    ((t.recurrenceType = RecurrenceType.monthly ∨
      t.recurrenceType = RecurrenceType.monthly_variable) →
      calculateNextRecurrenceDates t tgt =
        calculateNextRecurrenceDates
          { t with recurrenceDay := Option.none } tgt) ∧
    ((t.recurrenceType = RecurrenceType.weekly ∨
      t.recurrenceType = RecurrenceType.biweekly) →
      ∀ e ∈ calculateNextRecurrenceDates t tgt, e.getDay = 0) := by
  constructor
  · intro hty
    rcases hty with hty | hty <;>
      simp only [calculateNextRecurrenceDates, hd, hty, hrd,
        eq_self_iff_true, if_true]
  · intro hty e he
    rcases hty with hty | hty
    · rw [calc_weekly t anchor tgt 0 hd hty (Or.inr hrd)] at he
      exact ((collect_props anchor tgt hva 0 (by omega) (by omega) 1 7
        (by norm_num) (le_refl 1)).1 e he).1
    · rw [calc_biweekly t anchor tgt 0 hd hty (Or.inr hrd)] at he
      exact ((collect_props anchor tgt hva 0 (by omega) (by omega) 2 14
        (by norm_num) (by omega)).1 e he).1

/-- C10 witness. -/
theorem c10_zero_recurrence_day_witness :
    ((({ scenarioWeekly with recurrenceDay := some 0 } : Txn).recurrenceType =
        RecurrenceType.monthly ∨
      ({ scenarioWeekly with recurrenceDay := some 0 } : Txn).recurrenceType =
        RecurrenceType.monthly_variable) →
      calculateNextRecurrenceDates
          { scenarioWeekly with recurrenceDay := some 0 } ⟨2024, 6, 20⟩ =
        calculateNextRecurrenceDates
          { { scenarioWeekly with recurrenceDay := some 0 } with
            recurrenceDay := Option.none } ⟨2024, 6, 20⟩) ∧
    ((({ scenarioWeekly with recurrenceDay := some 0 } : Txn).recurrenceType =
        RecurrenceType.weekly ∨
      ({ scenarioWeekly with recurrenceDay := some 0 } : Txn).recurrenceType =
        RecurrenceType.biweekly) →
      ∀ e ∈ calculateNextRecurrenceDates
          { scenarioWeekly with recurrenceDay := some 0 } ⟨2024, 6, 20⟩,
        e.getDay = 0) :=
  c10_zero_recurrence_day { scenarioWeekly with recurrenceDay := some 0 }
    ⟨2024, 6, 5⟩ ⟨2024, 6, 20⟩ rfl (by decide) rfl

/-- C1: re-running the materializer with the same `(userId, targetDate)` and
no interleaved writes leaves the transaction table unchanged and returns a
created count of 0; moreover, across any sequence of runs (any target dates,
any failure schedules), the rows added to the initial table have pairwise
distinct `(userId, title, categoryId, calendar-date)` match keys — at most
one materialized transaction per key. -/
theorem c1_idempotence (u : String) (tgt : CalDate) (db : List Txn) :
    ((processRecurringTransactions u tgt
        (processRecurringTransactions u tgt db).1).1 =
      (processRecurringTransactions u tgt db).1 ∧
     (processRecurringTransactions u tgt
        (processRecurringTransactions u tgt db).1).2 = 0) ∧
    (∀ runs : List (CalDate × Option Nat),
      ∃ C, runs.foldl
          (fun d r => (resState (processAux r.2 u r.1 d)).db) db = db ++ C ∧
        C.Pairwise (fun a b => txnKey a ≠ txnKey b)) := by
  constructor
  · have hT : ∀ tp ∈ getRecurringTransactions u db, tp.userId = u :=
      fun tp h => (mem_getRecurring u db tp h).2.1
    obtain ⟨C1, hdb1, -, hmem1⟩ := stepTemplates_shape Option.none u tgt
      (getRecurringTransactions u db) ⟨db, 0, 0⟩
    have hC1rec : ∀ x ∈ C1, x.isRecurring = false := by
      intro x hx
      obtain ⟨tp, -, nd, -, hxe⟩ := hmem1 x hx
      rw [hxe]
      rfl
    have hsat := stepTemplates_saturate u tgt (getRecurringTransactions u db)
      ⟨db, 0, 0⟩ hT
    simp only [processRecurringTransactions, processAux]
    have hsame : getRecurringTransactions u
        (resState (stepTemplates Option.none u tgt
          (getRecurringTransactions u db) ⟨db, 0, 0⟩)).db =
        getRecurringTransactions u db := by
      rw [hdb1]
      exact getRecurring_append_created u _ C1 hC1rec
    obtain ⟨ops2, hrun2⟩ := stepTemplates_noop u tgt
      (getRecurringTransactions u db)
      ⟨(resState (stepTemplates Option.none u tgt
        (getRecurringTransactions u db) ⟨db, 0, 0⟩)).db, 0, 0⟩
      (fun tp htp nd hnd => hsat tp htp nd hnd)
    rw [hsame, hrun2]
    exact ⟨rfl, rfl⟩
  · intro runs
    have main : ∀ (rs : List (CalDate × Option Nat)) (d C : List Txn),
        d = db ++ C → C.Pairwise (fun a b => txnKey a ≠ txnKey b) →
        ∃ C2, rs.foldl
            (fun d r => (resState (processAux r.2 u r.1 d)).db) d = db ++ C2 ∧
          C2.Pairwise (fun a b => txnKey a ≠ txnKey b) := by
      intro rs
      induction rs with
      | nil =>
        intro d C h1 h2
        exact ⟨C, by simpa using h1, h2⟩
      | cons r rest ih =>
        intro d C h1 h2
        rw [List.foldl_cons]
        have hus : ∀ tp ∈ getRecurringTransactions u d, tp.userId = u :=
          fun tp h => (mem_getRecurring u d tp h).2.1
        obtain ⟨C1, hC1, hpw1⟩ := stepTemplates_uniq r.2 u r.1
          (getRecurringTransactions u d) ⟨d, 0, 0⟩ db C hus h1 h2
        exact ih _ C1 hC1 hpw1
    obtain ⟨C2, h1, h2⟩ := main runs db [] (by simp) List.Pairwise.nil
    exact ⟨C2, h1, h2⟩

end SaaS
